import Mathlib

/-!
Verification development for the `lily` identity-graph service.

The development shallowly embeds the three core components of the
repository — the key-value store adapter, the `GraphDatabase` layer
(`src/lib/graph.ts`), and the `UserTracker` identity tracker plus risk
engine (`src/lib/tracking.ts`) — as executable Lean functions, and proves
properties of the embedding.

Modelling conventions, fixed once here:
- The host key-value store is an association list from string keys to
  stored records, with put-overwrite semantics and lexicographic prefix
  listing, matching the consumed interface of the store adapter.
- JSON records are modelled structurally (`StoreVal`), since JSON
  serialization round-trips the records the code stores.
- `nanoid(14)` identifier allocation is modelled by a deterministic
  fresh-id supply (`genId` applied to a counter carried in the store);
  the generated identifiers contain no `':'`, as `nanoid`'s URL-safe
  alphabet guarantees.
- Concurrently issued single-level store batches (`Promise.all` over
  plain puts/deletes/gets: a node's index-row batch, `updateNode`'s
  delete/put batch, `createEdge`'s endpoint reads and triple write) are
  applied in issue order, which for such batches equals program order.
  The three node upserts inside `recordConnection` read and write
  pairwise disjoint key sets (distinct `type` index prefixes, distinct
  nodes), so their program-order linearization is exact as well. The two
  *edge* upserts of `recordConnection`, by contrast, race on the user's
  adjacency list; they are modelled by an explicit event-loop
  interleaving (`updTurn` / `raceConnections`) in which the chains
  alternate suspensions with the first-listed chain one turn ahead — the
  schedule the single-threaded event loop produces — so the lost
  adjacency append and the duplicate edge on the following record,
  documented in spec §5, are reproduced.
- All strings that reach comparisons are ASCII, where JavaScript's
  UTF-16 code-unit string order coincides with Lean's `String` order.
- `Array.prototype.sort` (ES2019+) is stable; the event sort is modelled
  by a stable insertion sort.
- `Date` arithmetic on UTC ISO-8601 strings is modelled by an exact
  proleptic-Gregorian conversion (`isoToMillis` / `millisToIso`)
  matching `Date.parse` and `Date.prototype.toISOString` on the strings
  the system produces.
-/

namespace Lily

/-! ## String helpers -/

/-- Characters of the decimal digit `n` for `n < 10`. -/
def digitChar : Nat → Char
  | 0 => '0' | 1 => '1' | 2 => '2' | 3 => '3' | 4 => '4'
  | 5 => '5' | 6 => '6' | 7 => '7' | 8 => '8' | _ => '9'

/-- Fuelled helper for `natDigits`; the fuel only needs to exceed the
digit count, and `natDigits` passes `n` itself. -/
def natDigitsAux : Nat → Nat → List Char
  | 0, _ => []
  | fuel + 1, n =>
    if n = 0 then [] else natDigitsAux fuel (n / 10) ++ [digitChar (n % 10)]

/-- Decimal digit list of a natural number (empty for 0). -/
def natDigits (n : Nat) : List Char := natDigitsAux n n

theorem natDigitsAux_fuel (fuel₁ : Nat) : ∀ fuel₂ n, n ≤ fuel₁ → n ≤ fuel₂ →
    natDigitsAux fuel₁ n = natDigitsAux fuel₂ n := by
  induction fuel₁ with
  | zero =>
    intro fuel₂ n h1 _
    interval_cases n
    cases fuel₂ <;> simp [natDigitsAux]
  | succ f ih =>
    intro fuel₂ n h1 h2
    match fuel₂, n with
    | f2, 0 => cases f2 <;> simp [natDigitsAux]
    | f2 + 1, n + 1 =>
      simp only [natDigitsAux, if_neg (Nat.succ_ne_zero n)]
      have hd : (n + 1) / 10 ≤ n := Nat.lt_succ_iff.mp (Nat.div_lt_self (Nat.succ_pos n) (by decide))
      rw [ih f2 ((n + 1) / 10) (le_trans hd (Nat.lt_succ_iff.mp h1))
        (le_trans hd (Nat.lt_succ_iff.mp h2))]

/-- Defining recurrence of `natDigits` for positive arguments. -/
theorem natDigits_pos (n : Nat) (h : 0 < n) :
    natDigits n = natDigits (n / 10) ++ [digitChar (n % 10)] := by
  match n, h with
  | n + 1, _ =>
    show natDigitsAux (n + 1) (n + 1) = _
    simp only [natDigitsAux, if_neg (Nat.succ_ne_zero n)]
    have hd : (n + 1) / 10 ≤ n := Nat.lt_succ_iff.mp (Nat.div_lt_self (Nat.succ_pos n) (by decide))
    rw [natDigitsAux_fuel n ((n + 1) / 10) ((n + 1) / 10) hd le_rfl]
    rfl

/-- Decimal string of a natural number. -/
def natToStr (n : Nat) : String :=
  if n = 0 then "0" else ⟨natDigits n⟩

/-- Deterministic fresh identifier supply standing in for `nanoid(14)`. -/
def genId (m : Nat) : String := "id" ++ natToStr m

/-- Boolean string-prefix test on the character lists (the observable
behavior of `String.startsWith` on the store's keys). -/
def strIsPrefixOf (p s : String) : Bool := p.data.isPrefixOf s.data

/-- Lexicographic strict comparison of character lists, by code point —
the order JavaScript's `<`/`localeCompare` and the host store's key
ordering induce on the ASCII strings the system uses. -/
def charListLt : List Char → List Char → Bool
  | [], [] => false
  | [], _ :: _ => true
  | _ :: _, [] => false
  | a :: as, b :: bs => if a < b then true else if b < a then false else charListLt as bs

/-- Strict lexicographic string comparison. -/
def strLt (a b : String) : Bool := charListLt a.data b.data

/-- Lexicographic `≤` on strings, the comparison the source performs
with `>=` on ISO-8601 timestamps. -/
def strLe (a b : String) : Bool := !(strLt b a)

theorem charListLt_trans (a : List Char) : ∀ b c, charListLt a b = true →
    charListLt b c = true → charListLt a c = true := by
  induction a with
  | nil =>
    intro b c h1 h2
    cases b with
    | nil => exact absurd h1 (by simp [charListLt])
    | cons y ys => cases c with
      | nil => exact absurd h2 (by simp [charListLt])
      | cons z zs => simp [charListLt]
  | cons x xs ih =>
    intro b c h1 h2
    cases b with
    | nil => exact absurd h1 (by simp [charListLt])
    | cons y ys =>
      cases c with
      | nil => exact absurd h2 (by simp [charListLt])
      | cons z zs =>
        simp only [charListLt] at h1 h2 ⊢
        by_cases hxy : x < y
        · by_cases hyz : y < z
          · simp [lt_trans hxy hyz]
          · simp only [if_neg hyz] at h2
            by_cases hzy : z < y
            · simp [hzy] at h2
            · have : y = z := le_antisymm (not_lt.mp hzy) (not_lt.mp hyz)
              simp [this ▸ hxy]
        · simp only [if_neg hxy] at h1
          by_cases hyx : y < x
          · simp [hyx] at h1
          · have hxy' : x = y := le_antisymm (not_lt.mp hyx) (not_lt.mp hxy)
            subst hxy'
            rw [if_neg (lt_irrefl x)] at h1
            by_cases hxz : x < z
            · simp [hxz]
            · simp only [if_neg hxz] at h2 ⊢
              by_cases hzx : z < x
              · simp [hzx] at h2
              · simp only [if_neg hzx] at h2 ⊢
                exact ih ys zs h1 h2

theorem charListLt_conn (a : List Char) : ∀ b, charListLt a b = false →
    charListLt b a = false → a = b := by
  induction a with
  | nil =>
    intro b h1 _
    cases b with
    | nil => rfl
    | cons y ys => exact absurd h1 (by simp [charListLt])
  | cons x xs ih =>
    intro b h1 h2
    cases b with
    | nil => exact absurd h2 (by simp [charListLt])
    | cons y ys =>
      simp only [charListLt] at h1 h2
      by_cases hxy : x < y
      · simp [hxy] at h1
      · by_cases hyx : y < x
        · simp [hyx] at h2
        · have hxy' : x = y := le_antisymm (not_lt.mp hyx) (not_lt.mp hxy)
          subst hxy'
          rw [if_neg (lt_irrefl x), if_neg (lt_irrefl x)] at h1
          rw [if_neg (lt_irrefl x), if_neg (lt_irrefl x)] at h2
          rw [ih ys h1 h2]

theorem strLe_trans {a b c : String} (h1 : strLe a b = true) (h2 : strLe b c = true) :
    strLe a c = true := by
  simp only [strLe, strLt, Bool.not_eq_true'] at h1 h2 ⊢
  by_cases hca : charListLt c.data a.data = true
  · exfalso
    by_cases hbc : charListLt b.data c.data = true
    · have := charListLt_trans _ _ _ hbc hca
      simp_all
    · have hbc' : b.data = c.data := charListLt_conn _ _ (by simpa using hbc) h2
      rw [hbc'] at h1
      simp_all
  · simpa using hca

/-- Predicate: the string contains no `':'` character. -/
def NoColon (s : String) : Prop := ':' ∉ s.data

instance (s : String) : Decidable (NoColon s) := by
  unfold NoColon; infer_instance

/-- Substring after the last `':'` of a string; this is what
`key.split(":").pop()` computes in the source's `query`. -/
def extractId (s : String) : String :=
  ⟨(s.data.reverse.takeWhile (fun c => !(c == ':'))).reverse⟩

/-! ## Stable insertion sort keyed by a string projection -/

/-- Inserts `x` into `l` before the first element with a strictly larger
key, i.e. after all elements with an equal key (stable). -/
def insertSortedBy (f : α → String) (x : α) : List α → List α
  | [] => [x]
  | y :: ys => if strLt (f x) (f y) then x :: y :: ys else y :: insertSortedBy f x ys

/-- Stable insertion sort by a string key, as a left fold. -/
def sortByKey (f : α → String) (l : List α) : List α :=
  l.foldl (fun acc x => insertSortedBy f x acc) []

theorem mem_insertSortedBy (f : α → String) (x : α) (l : List α) (a : α) :
    a ∈ insertSortedBy f x l ↔ a = x ∨ a ∈ l := by
  induction l with
  | nil => simp [insertSortedBy]
  | cons y ys ih =>
    simp only [insertSortedBy]
    by_cases h : strLt (f x) (f y) = true
    · simp [h]
    · simp [h, ih]
      tauto

theorem length_insertSortedBy (f : α → String) (x : α) (l : List α) :
    (insertSortedBy f x l).length = l.length + 1 := by
  induction l with
  | nil => rfl
  | cons y ys ih =>
    simp only [insertSortedBy]
    by_cases h : strLt (f x) (f y) = true <;> simp [h, ih]

theorem mem_sortByKey_aux (f : α → String) (l acc : List α) (a : α) :
    a ∈ l.foldl (fun acc x => insertSortedBy f x acc) acc ↔ a ∈ acc ∨ a ∈ l := by
  induction l generalizing acc with
  | nil => simp
  | cons x xs ih =>
    simp only [List.foldl_cons, ih, mem_insertSortedBy, List.mem_cons]
    tauto

theorem mem_sortByKey (f : α → String) (l : List α) (a : α) :
    a ∈ sortByKey f l ↔ a ∈ l := by
  simp [sortByKey, mem_sortByKey_aux]

theorem length_sortByKey_aux (f : α → String) (l acc : List α) :
    (l.foldl (fun acc x => insertSortedBy f x acc) acc).length
      = acc.length + l.length := by
  induction l generalizing acc with
  | nil => simp
  | cons x xs ih => simp [ih, length_insertSortedBy]; omega

theorem length_sortByKey (f : α → String) (l : List α) :
    (sortByKey f l).length = l.length := by
  simp [sortByKey, length_sortByKey_aux]

/-! ## Data model: properties, nodes, edges, stored records

Mirrors the `Node` and `Edge` interfaces of `src/lib/graph.ts`. Property
values are the JSON-serializable values the tracker actually stores:
strings, numbers, and the fingerprint `metadata` sub-object. -/

/-- UA classification attached to FINGERPRINT nodes, as built by
`getOrCreateFingerprintNode` from the parser result. -/
structure DeviceMetadata where
  browser : String
  browserVersion : String
  os : String
  osVersion : String
  device : String
  deviceType : String
  cpu : String
  userAgent : String
deriving DecidableEq, Repr

/-- A JSON-serializable property value. -/
inductive Value where
  | str (s : String)
  | num (n : Int)
  | obj (m : DeviceMetadata)
deriving DecidableEq, Repr

/-- String interpolation of a value into an index key, as JavaScript
template literals stringify it: strings verbatim, numbers in decimal,
objects as `[object Object]`. -/
def Value.toJSString : Value → String
  | .str s => s
  | .num n => if n < 0 then "-" ++ natToStr n.natAbs else natToStr n.natAbs
  | .obj _ => "[object Object]"

/-- Property maps are association lists in JavaScript object key order. -/
abbrev Props := List (String × Value)

/-- Property lookup (`obj[key]`), first binding wins. -/
def propsGet (p : Props) (k : String) : Option Value :=
  (p.find? (fun kv => kv.1 == k)).map (·.2)

/-- Spread merge `{...old, ...delta}`: keys of `old` keep their position
with `delta` overriding their values, new keys of `delta` are appended. -/
def propsMerge (old delta : Props) : Props :=
  old.map (fun kv =>
    match delta.find? (fun kv2 => kv2.1 == kv.1) with
    | some kv2 => (kv.1, kv2.2)
    | none => kv)
  ++ delta.filter (fun kv2 => !(old.any (fun kv => kv.1 == kv2.1)))

/-- Graph node record (`Node` in `src/lib/graph.ts`). -/
structure GNode where
  id : String
  properties : Props
  inEdges : List String
  outEdges : List String
deriving DecidableEq, Repr

/-- Graph edge record (`Edge` in `src/lib/graph.ts`). -/
structure Edge where
  id : String
  type : String
  properties : Props
  fromNodeId : String
  toNodeId : String
deriving DecidableEq, Repr

/-- A JSON record stored under a key: node record, edge record, or
secondary-index record `{nodeId, value}`. -/
inductive StoreVal where
  | node (n : GNode)
  | edge (e : Edge)
  | idx (nodeId : String) (value : Value)
deriving DecidableEq, Repr

/-! ## Key-value store adapter

Flat ordered string-keyed store with point get/put/delete and
prefix-ordered listing, the consumed interface of §6 of the spec. The
`nextId` counter is the fresh-identifier supply. -/

structure KV where
  entries : List (String × StoreVal)
  nextId : Nat
deriving DecidableEq, Repr

def kvEmpty : KV := ⟨[], 0⟩

def kvGet (s : KV) (k : String) : Option StoreVal :=
  (s.entries.find? (fun e => e.1 == k)).map (·.2)

def kvPut (s : KV) (k : String) (v : StoreVal) : KV :=
  { s with entries := (k, v) :: s.entries.filter (fun e => !(e.1 == k)) }

def kvDelete (s : KV) (k : String) : KV :=
  { s with entries := s.entries.filter (fun e => !(e.1 == k)) }

def freshId (s : KV) : String × KV :=
  (genId s.nextId, { s with nextId := s.nextId + 1 })

/-- Result of a prefix listing, mirroring the host store's
`{keys, cursor, list_complete}`. -/
structure KVListResult where
  keys : List String
  cursor : Option String
  list_complete : Bool
deriving DecidableEq, Repr

/-- Packaging of a listing page from the remaining matching keys: at
most `limit` keys, a cursor (the last returned key) when more remain,
and `list_complete` true iff no further keys remain. -/
def kvListOf (rest : List String) (limit : Nat) : KVListResult :=
  { keys := rest.take limit
    cursor := if rest.length ≤ limit then none else (rest.take limit).getLast?
    list_complete := rest.length ≤ limit }

/-- Keys of the store with the given prefix, in ascending lexicographic
order, strictly after the cursor when one is supplied. -/
def kvMatching (s : KV) (pfx : String) (cursor : Option String) : List String :=
  let all := sortByKey id ((s.entries.map (·.1)).filter (fun k => strIsPrefixOf pfx k))
  match cursor with
  | none => all
  | some c => all.filter (fun k => strLt c k)

/-- Prefix listing: keys with the given prefix in ascending lexicographic
order, resuming strictly after the cursor when one is supplied. -/
def kvList (s : KV) (pfx : String) (limit : Nat) (cursor : Option String) :
    KVListResult :=
  kvListOf (kvMatching s pfx cursor) limit

/-! ## Graph database (`GraphDatabase` in `src/lib/graph.ts`)

Key layout uses the default namespaces `node:`, `edge:`, `index:` and the
default `BATCH_SIZE = 100`, which is what the tracker's constructor
produces. -/

def nodeKey (id : String) : String := "node:" ++ id

def edgeKey (id : String) : String := "edge:" ++ id

/-- Index key `index:<propertyKey>:<propertyValue>:<nodeId>` with the
value already stringified. -/
def idxKeyStr (k v id : String) : String :=
  "index:" ++ k ++ ":" ++ v ++ ":" ++ id

/-- Index key for a property pair, stringifying the value as the
template literal in the source does. -/
def mkIndexKey (k : String) (v : Value) (id : String) : String :=
  idxKeyStr k v.toJSString id

/-- Writes the node record, then one index entry per property, and
returns the new node (`createNode`). -/
def createNode (s : KV) (properties : Props) : GNode × KV :=
  let (nodeId, s) := freshId s
  let node : GNode := { id := nodeId, properties := properties, inEdges := [], outEdges := [] }
  let s := kvPut s (nodeKey nodeId) (.node node)
  let s := properties.foldl (fun s kv => kvPut s (mkIndexKey kv.1 kv.2 nodeId) (.idx nodeId kv.2)) s
  (node, s)

/-- Single point read of a node record (`getNode`). -/
def getNode (s : KV) (nodeId : String) : Option GNode :=
  match kvGet s (nodeKey nodeId) with
  | some (.node n) => some n
  | _ => none

/-- Reads the node, deletes index entries for every current property,
merges the delta over the properties, writes index entries for every
resulting property and rewrites the node record (`updateNode`). The
concurrently issued deletes, index puts and node put are linearized in
the order they appear in the `Promise.all` array. -/
def updateNode (s : KV) (nodeId : String) (properties : Props) : Option GNode × KV :=
  match getNode s nodeId with
  | none => (none, s)
  | some node =>
    let s := node.properties.foldl
      (fun s kv => kvDelete s (mkIndexKey kv.1 kv.2 nodeId)) s
    let merged := propsMerge node.properties properties
    let node' : GNode := { node with properties := merged }
    let s := merged.foldl
      (fun s kv => kvPut s (mkIndexKey kv.1 kv.2 nodeId) (.idx nodeId kv.2)) s
    let s := kvPut s (nodeKey nodeId) (.node node')
    (some node', s)

/-- Single point read of an edge record (`getEdge`). -/
def getEdge (s : KV) (edgeId : String) : Option Edge :=
  match kvGet s (edgeKey edgeId) with
  | some (.edge e) => some e
  | _ => none

/-- Merges properties over an edge record and rewrites it; edges carry
no indexes (`updateEdge`). -/
def updateEdge (s : KV) (edgeId : String) (properties : Props) : Option Edge × KV :=
  match getEdge s edgeId with
  | none => (none, s)
  | some edge =>
    let edge' : Edge := { edge with properties := propsMerge edge.properties properties }
    (some edge', kvPut s (edgeKey edgeId) (.edge edge'))

/-- Reads the edge, removes its id from each existing endpoint's
adjacency list, then deletes the edge record (`deleteEdge`). Missing
endpoints are tolerated silently. -/
def deleteEdge (s : KV) (edgeId : String) : Bool × KV :=
  match getEdge s edgeId with
  | none => (false, s)
  | some edge =>
    let s := match getNode s edge.fromNodeId with
      | some fromNode =>
        kvPut s (nodeKey edge.fromNodeId)
          (.node { fromNode with outEdges := fromNode.outEdges.filter (fun i => !(i == edgeId)) })
      | none => s
    let s := match getNode s edge.toNodeId with
      | some toNode =>
        kvPut s (nodeKey edge.toNodeId)
          (.node { toNode with inEdges := toNode.inEdges.filter (fun i => !(i == edgeId)) })
      | none => s
    (true, kvDelete s (edgeKey edgeId))

/-- Reads the node, cascades `deleteEdge` over its adjacency, deletes all
its index entries and the node record (`deleteNode`); false when the
node did not exist. -/
def deleteNode (s : KV) (nodeId : String) : Bool × KV :=
  match getNode s nodeId with
  | none => (false, s)
  | some node =>
    let s := (node.inEdges ++ node.outEdges).foldl (fun s eid => (deleteEdge s eid).2) s
    let s := node.properties.foldl
      (fun s kv => kvDelete s (mkIndexKey kv.1 kv.2 nodeId)) s
    (true, kvDelete s (nodeKey nodeId))

/-- Reads both endpoints — failing (`none`) when either is missing —
allocates a fresh id, appends it to `fromNode.outEdges` and
`toNode.inEdges`, and writes the edge record and both node records in
the order of the `Promise.all` array (`createEdge`). -/
def createEdge (s : KV) (fromNodeId toNodeId ty : String) (properties : Props) :
    Option Edge × KV :=
  match getNode s fromNodeId, getNode s toNodeId with
  | some fromNode, some toNode =>
    let (edgeId, s) := freshId s
    let edge : Edge :=
      { id := edgeId, type := ty, properties := properties
        fromNodeId := fromNodeId, toNodeId := toNodeId }
    let fromNode := { fromNode with outEdges := fromNode.outEdges ++ [edgeId] }
    let toNode := { toNode with inEdges := toNode.inEdges ++ [edgeId] }
    let s := kvPut s (edgeKey edgeId) (.edge edge)
    let s := kvPut s (nodeKey fromNodeId) (.node fromNode)
    let s := kvPut s (nodeKey toNodeId) (.node toNode)
    (some edge, s)
  | _, _ => (none, s)

/-! ### query -/

structure QueryOptions where
  type : Option String := none
  property : Option String := none
  value : Option Value := none
  limit : Option Nat := none
  cursor : Option String := none
deriving DecidableEq, Repr

structure QueryResult where
  items : List GNode
  cursor : Option String
  hasMore : Bool
deriving DecidableEq, Repr

/-- JavaScript truthiness of an optional string: false for undefined and
for the empty string. -/
def strTruthy : Option String → Bool
  | none => false
  | some s => !(s == "")

/-- Index prefix selection of `query`: a truthy `type` takes precedence
and the property filter is then ignored; otherwise a truthy `property`
with a defined `value`; otherwise the whole index namespace. -/
def queryPfx (o : QueryOptions) : String :=
  if strTruthy o.type then "index:type:" ++ o.type.getD "" ++ ":"
  else if strTruthy o.property && o.value.isSome then
    "index:" ++ o.property.getD "" ++ ":" ++ (o.value.getD (.str "")).toJSString ++ ":"
  else "index:"

/-- Asks the store for `limit + 1` keys, extracts each node id as the
substring after the key's last `':'`, fetches the nodes and drops those
that no longer resolve; returns up to `limit` items plus a cursor when
the listing was not complete (`query`). -/
def query (s : KV) (o : QueryOptions) : QueryResult :=
  let limit := o.limit.getD 100
  let listResult := kvList s (queryPfx o) (limit + 1) o.cursor
  let nodeIds := (listResult.keys.take limit).map extractId
  let validNodes := nodeIds.filterMap (getNode s)
  { items := validNodes
    cursor := if listResult.list_complete then none else listResult.cursor
    hasMore := !listResult.list_complete && decide (limit < listResult.keys.length) }

/-! ## UTC date arithmetic

Exact proleptic-Gregorian conversions between epoch milliseconds and the
ISO-8601 UTC strings the system manipulates, modelling
`new Date(ms).toISOString()` and `new Date(iso).getTime()` on the string
shapes `YYYY-MM-DDTHH:MM:SSZ` and `YYYY-MM-DDTHH:MM:SS.mmmZ`. -/

/-- Zero-padded decimal with at least 2 digits. -/
def pad2 (n : Nat) : String := if n < 10 then "0" ++ natToStr n else natToStr n

/-- Zero-padded decimal with at least 3 digits. -/
def pad3 (n : Nat) : String :=
  if n < 10 then "00" ++ natToStr n else if n < 100 then "0" ++ natToStr n else natToStr n

/-- Zero-padded decimal with at least 4 digits. -/
def pad4 (n : Nat) : String :=
  if n < 10 then "000" ++ natToStr n
  else if n < 100 then "00" ++ natToStr n
  else if n < 1000 then "0" ++ natToStr n
  else natToStr n

/-- Days since 1970-01-01 of the civil date `(y, m, d)`. -/
def daysFromCivil (y : Int) (m d : Nat) : Int :=
  let y' : Int := if m ≤ 2 then y - 1 else y
  let era : Int := (if 0 ≤ y' then y' else y' - 399) / 400
  let yoe : Nat := (y' - era * 400).toNat
  let mp : Nat := (m + 9) % 12
  let doy : Nat := (153 * mp + 2) / 5 + d - 1
  let doe : Nat := yoe * 365 + yoe / 4 - yoe / 100 + doy
  era * 146097 + (doe : Int) - 719468

/-- Civil date `(y, m, d)` of a count of days since 1970-01-01. -/
def civilFromDays (z : Int) : Int × Nat × Nat :=
  let z := z + 719468
  let era : Int := Int.fdiv z 146097
  let doe : Nat := (z - era * 146097).toNat
  let yoe : Nat := (doe - doe / 1460 + doe / 36524 - doe / 146096) / 365
  let doy : Nat := doe - (365 * yoe + yoe / 4 - yoe / 100)
  let mp : Nat := (5 * doy + 2) / 153
  let d : Nat := doy - (153 * mp + 2) / 5 + 1
  let m : Nat := if mp < 10 then mp + 3 else mp - 9
  (if m ≤ 2 then (yoe : Int) + era * 400 + 1 else (yoe : Int) + era * 400, m, d)

/-- Epoch milliseconds rendered as `YYYY-MM-DDTHH:MM:SS.mmmZ`
(`Date.prototype.toISOString`). -/
def millisToIso (ms : Int) : String :=
  let day := Int.fdiv ms 86400000
  let rem := (ms - day * 86400000).toNat
  let ymd := civilFromDays day
  let hh := rem / 3600000
  let mi := rem % 3600000 / 60000
  let ss := rem % 60000 / 1000
  let mmm := rem % 1000
  pad4 ymd.1.toNat ++ "-" ++ pad2 ymd.2.1 ++ "-" ++ pad2 ymd.2.2 ++ "T" ++
    pad2 hh ++ ":" ++ pad2 mi ++ ":" ++ pad2 ss ++ "." ++ pad3 mmm ++ "Z"

/-- Numeric value of a list of decimal digit characters. -/
def natOfDigits (l : List Char) : Nat :=
  l.foldl (fun a c => a * 10 + (c.toNat - 48)) 0

/-- Epoch milliseconds of a UTC ISO-8601 string, with or without a
millisecond part (`Date.parse` on the shapes the system uses). -/
def isoToMillis (s : String) : Int :=
  let c := s.data
  let y := natOfDigits (c.take 4)
  let m := natOfDigits ((c.drop 5).take 2)
  let d := natOfDigits ((c.drop 8).take 2)
  let hh := natOfDigits ((c.drop 11).take 2)
  let mi := natOfDigits ((c.drop 14).take 2)
  let ss := natOfDigits ((c.drop 17).take 2)
  let mmm := if c.length ≥ 24 then natOfDigits ((c.drop 20).take 3) else 0
  daysFromCivil (y : Int) m d * 86400000 +
    ((hh * 3600000 + mi * 60000 + ss * 1000 + mmm : Nat) : Int)

/-! ## Identity tracker (`UserTracker` in `src/lib/tracking.ts`) -/

/-- Edge statistics `{firstSeen, lastSeen, count}`. -/
structure ConnectionStats where
  firstSeen : String
  lastSeen : String
  count : Int
deriving DecidableEq, Repr

/-- Reads a property as a string (absent or non-string reads as the
empty string; the tracker only reads properties it has written). -/
def getStrProp (p : Props) (k : String) : String :=
  match propsGet p k with
  | some (.str s) => s
  | _ => ""

/-- Reads a property as a number with JavaScript's `|| 0` fallback. -/
def getNumProp (p : Props) (k : String) : Int :=
  match propsGet p k with
  | some (.num n) => n
  | _ => 0

/-- Reads the optional `metadata` property. -/
def getMetaProp (p : Props) : Option DeviceMetadata :=
  match propsGet p "metadata" with
  | some (.obj m) => some m
  | _ => none

/-- View of an edge's properties as `ConnectionStats`
(`edge.properties as ConnectionStats`). -/
def statsOfProps (p : Props) : ConnectionStats :=
  { firstSeen := getStrProp p "firstSeen"
    lastSeen := getStrProp p "lastSeen"
    count := getNumProp p "count" }

/-- One `{node, stats}` entry of an adjacency fetch. -/
structure Connection where
  node : GNode
  stats : ConnectionStats
deriving DecidableEq, Repr

/-- Result of the external UA classifier, every field optional. -/
structure UAResult where
  browserName : Option String := none
  browserVersion : Option String := none
  osName : Option String := none
  osVersion : Option String := none
  deviceModel : Option String := none
  deviceType : Option String := none
  cpuArchitecture : Option String := none
deriving DecidableEq, Repr

/-- A UA classifier oracle; the tracker is parameterized by it because
`ua-parser-js` is an external collaborator. -/
abbrev UAClassifier := String → UAResult

/-- Upserts the USER node by querying `{type, property: userId, value}`
and either touching `lastSeen` or creating the node
(`getOrCreateUserNode`). Returns the queried (pre-update) record, as the
source does. -/
def getOrCreateUserNode (s : KV) (userId timestamp : String) : GNode × KV :=
  let users := query s { type := some "USER", property := some "userId", value := some (.str userId) }
  match users.items with
  | user :: _ => (user, (updateNode s user.id [("lastSeen", .str timestamp)]).2)
  | [] =>
    createNode s
      [("type", .str "USER"), ("userId", .str userId),
       ("firstSeen", .str timestamp), ("lastSeen", .str timestamp)]

/-- Upserts the IP node (`getOrCreateIPNode`). -/
def getOrCreateIPNode (s : KV) (ip timestamp : String) : GNode × KV :=
  let ips := query s { type := some "IP", property := some "ip", value := some (.str ip) }
  match ips.items with
  | ipNode :: _ => (ipNode, (updateNode s ipNode.id [("lastSeen", .str timestamp)]).2)
  | [] =>
    createNode s
      [("type", .str "IP"), ("ip", .str ip),
       ("firstSeen", .str timestamp), ("lastSeen", .str timestamp)]

/-- Upserts the FINGERPRINT node, attaching the UA classification with
`"Unknown"` defaults and `"desktop"` for a missing device type
(`getOrCreateFingerprintNode`). -/
def getOrCreateFingerprintNode (ua : UAClassifier) (s : KV)
    (fingerprint userAgent timestamp : String) : GNode × KV :=
  let fps := query s { type := some "FINGERPRINT", property := some "fingerprint", value := some (.str fingerprint) }
  match fps.items with
  | fpNode :: _ => (fpNode, (updateNode s fpNode.id [("lastSeen", .str timestamp)]).2)
  | [] =>
    let r := ua userAgent
    createNode s
      [("type", .str "FINGERPRINT"), ("fingerprint", .str fingerprint),
       ("firstSeen", .str timestamp), ("lastSeen", .str timestamp),
       ("metadata", .obj
         { browser := r.browserName.getD "Unknown"
           browserVersion := r.browserVersion.getD "Unknown"
           os := r.osName.getD "Unknown"
           osVersion := r.osVersion.getD "Unknown"
           device := r.deviceModel.getD "Unknown"
           deviceType := r.deviceType.getD "desktop"
           cpu := r.cpuArchitecture.getD "Unknown"
           userAgent := userAgent })]

/-- Control state of one in-flight `updateConnection` chain
(`updateConnection` / `findEdge` in the source), one constructor per
suspension point: read the source node, scan its `outEdges` one
`getEdge` at a time, then either `updateEdge`'s read/write pair or
`createEdge`'s endpoint-read and triple-write batches. -/
inductive UpdPhase where
  | readFrom
  | scanEdges (pending : List String)
  | updGet (found : Edge)
  | updPut (merged : Edge)
  | createGet
  | createPut (fromNode toNode : GNode)
  | finished
  | failed
deriving DecidableEq, Repr

/-- The fixed arguments of one `updateConnection` chain. -/
structure UpdCfg where
  fromNodeId : String
  toNodeId : String
  ty : String
  timestamp : String
deriving DecidableEq, Repr

/-- One event-loop turn of an `updateConnection` chain: the store
operations of the chain's next suspension, returning the successor
state. A missing source node or a missing `createEdge` endpoint fails
the chain (the source `throw`s). A scan match proceeds to `updateEdge`'s
read-then-write, whose `count` delta uses the copy `findEdge` returned
while the merge base is `updateEdge`'s own re-read; an exhausted scan
proceeds to `createEdge`, which re-reads both endpoints in one turn
(they are requested together) and then performs its three writes in the
order of the `Promise.all` array. -/
def updTurn (cfg : UpdCfg) (s : KV) : UpdPhase → KV × UpdPhase
  | .readFrom =>
    match getNode s cfg.fromNodeId with
    | none => (s, .failed)
    | some fromNode => (s, .scanEdges fromNode.outEdges)
  | .scanEdges [] => (s, .createGet)
  | .scanEdges (eid :: rest) =>
    match getEdge s eid with
    | some e =>
      if e.type == cfg.ty && e.toNodeId == cfg.toNodeId then (s, .updGet e)
      else (s, .scanEdges rest)
    | none => (s, .scanEdges rest)
  | .updGet found =>
    match getEdge s found.id with
    | none => (s, .finished)
    | some e =>
      (s, .updPut { e with properties := (propsMerge e.properties
        [("lastSeen", .str cfg.timestamp),
         ("count", .num (getNumProp found.properties "count" + 1))]) })
  | .updPut merged => (kvPut s (edgeKey merged.id) (.edge merged), .finished)
  | .createGet =>
    match getNode s cfg.fromNodeId, getNode s cfg.toNodeId with
    | some fromNode, some toNode => (s, .createPut fromNode toNode)
    | _, _ => (s, .failed)
  | .createPut fromNode toNode =>
    let (edgeId, s) := freshId s
    let edge : Edge :=
      { id := edgeId, type := cfg.ty
        properties := [("firstSeen", .str cfg.timestamp),
                       ("lastSeen", .str cfg.timestamp), ("count", .num 1)]
        fromNodeId := cfg.fromNodeId, toNodeId := cfg.toNodeId }
    let s := kvPut s (edgeKey edgeId) (.edge edge)
    let s := kvPut s (nodeKey cfg.fromNodeId)
      (.node { fromNode with outEdges := fromNode.outEdges ++ [edgeId] })
    let s := kvPut s (nodeKey cfg.toNodeId)
      (.node { toNode with inEdges := toNode.inEdges ++ [edgeId] })
    (s, .finished)
  | .finished => (s, .finished)
  | .failed => (s, .failed)

/-- Event-loop interleaving of the two edge upserts of
`recordConnection`'s second `Promise.all`: the chains alternate turns
with the first-listed (`USES_IP`) chain one suspension ahead — the
schedule the single-threaded event loop produces for two identical
chains started back to back. Both chains therefore read the shared user
node before either writes it, and the second chain's adjacency write
lands last (last writer wins): the lost-append behaviour documented in
spec §5. A chain failure models the rejected `Promise.all` as `none`.
The fuel bounds the rounds; each chain consumes at most
`outEdges.length + 5` turns. -/
def raceConnections (cfgA cfgB : UpdCfg) : Nat → KV → UpdPhase → UpdPhase → Option KV
  | 0, _, _, _ => none
  | _ + 1, s, .finished, .finished => some s
  | fuel + 1, s, pa, pb =>
    if pa = .failed ∨ pb = .failed then none
    else
      let ra := updTurn cfgA s pa
      let rb := updTurn cfgB ra.1 pb
      raceConnections cfgA cfgB fuel rb.1 ra.2 rb.2

/-- Records one observed session (`recordConnection`): upserts the three
nodes — these three chains read and write pairwise disjoint key sets
(distinct `type` index prefixes, distinct node and index rows), so
their program-order linearization is exact — and then races the two
edge upserts under the event-loop schedule (`raceConnections`). Node
upserts complete before edge upserts start, as the source sequencing
enforces. -/
def recordConnection (ua : UAClassifier) (s : KV)
    (userId ip fingerprint userAgent timestamp : String) : Option KV :=
  let r1 := getOrCreateUserNode s userId timestamp
  let r2 := getOrCreateIPNode r1.2 ip timestamp
  let r3 := getOrCreateFingerprintNode ua r2.2 fingerprint userAgent timestamp
  let uLen := match getNode r3.2 r1.1.id with
    | some n => n.outEdges.length
    | none => 0
  raceConnections
    { fromNodeId := r1.1.id, toNodeId := r2.1.id, ty := "USES_IP", timestamp := timestamp }
    { fromNodeId := r1.1.id, toNodeId := r3.1.id
      ty := "USES_FINGERPRINT", timestamp := timestamp }
    (2 * uLen + 32) r3.2 .readFrom .readFrom

/-- Fetches the outbound edges of `node`, keeps those of the given type
whose target still resolves, and pairs each target with the edge's
stats (`getNodeConnections`). -/
def getNodeConnections (s : KV) (node : GNode) (ty : String) : List Connection :=
  node.outEdges.filterMap (fun eid =>
    match getEdge s eid with
    | some edge =>
      if edge.type == ty then
        match getNode s edge.toNodeId with
        | some target => some { node := target, stats := statsOfProps edge.properties }
        | none => none
      else none
    | none => none)

/-- One `{ip, stats}` projection of `getUserConnections`. -/
structure IPConnection where
  ip : String
  stats : ConnectionStats
deriving DecidableEq, Repr

/-- One `{fingerprint, metadata, stats}` projection of
`getUserConnections`. -/
structure FPConnection where
  fingerprint : String
  metadata : Option DeviceMetadata
  stats : ConnectionStats
deriving DecidableEq, Repr

structure UserConnection where
  ips : List IPConnection
  fingerprints : List FPConnection
deriving DecidableEq, Repr

/-- Queries the user by `{type: USER, property: userId}`, returning empty
lists when the query yields nothing, otherwise projecting both
neighborhoods (`getUserConnections`). -/
def getUserConnections (s : KV) (userId : String) : UserConnection :=
  let users := query s { type := some "USER", property := some "userId", value := some (.str userId) }
  match users.items with
  | [] => { ips := [], fingerprints := [] }
  | userNode :: _ =>
    let ipConns := getNodeConnections s userNode "USES_IP"
    let fpConns := getNodeConnections s userNode "USES_FINGERPRINT"
    { ips := ipConns.map (fun c => { ip := getStrProp c.node.properties "ip", stats := c.stats })
      fingerprints := fpConns.map (fun c =>
        { fingerprint := getStrProp c.node.properties "fingerprint"
          metadata := getMetaProp c.node.properties
          stats := c.stats }) }

/-! ## Risk engine (`calculateUserRisk` and helpers) -/

inductive RiskLevel where
  | LOW | MEDIUM | HIGH
deriving DecidableEq, Repr

/-- Level mapping (`getRiskLevel`). -/
def getRiskLevel (score : Nat) : RiskLevel :=
  if score ≥ 70 then .HIGH else if score ≥ 40 then .MEDIUM else .LOW

/-- One event of the unified identity-event stream of factor 4. -/
inductive IdentityEvent where
  | ipEvent (ip : String) (timestamp : String)
  | fpEvent (fingerprint : String) (timestamp : String)
deriving DecidableEq, Repr

def IdentityEvent.timestamp : IdentityEvent → String
  | .ipEvent _ t => t
  | .fpEvent _ t => t

/-- Structured rendering of a risk factor's `details` payload. -/
inductive RiskDetails where
  | empty
  | multipleIPs (uniqueIPs : Nat) (ips : List String)
  | rapidSwitching (changesLastHour : Nat)
  | multipleFPs (uniqueFingerprints : Nat)
  | rapidChanges (changes : Nat) (timeWindow : String) (events : List IdentityEvent)
deriving DecidableEq, Repr

structure RiskFactor where
  score : Nat
  reason : String
  details : RiskDetails
deriving DecidableEq, Repr

structure RiskAssessment where
  score : Nat
  level : RiskLevel
  factors : List RiskFactor
deriving DecidableEq, Repr

/-- First-occurrence deduplication, the observable content of
`Array.from(new Set(xs))`. -/
def dedupStrs (l : List String) : List String :=
  l.foldl (fun acc x => if acc.contains x then acc else acc ++ [x]) []

/-- Number of adjacent pairs of the (sorted) event list strictly less
than 1000 ms apart. -/
def countRapidPairs : List IdentityEvent → Nat
  | a :: b :: rest =>
    (if isoToMillis b.timestamp - isoToMillis a.timestamp < 1000 then 1 else 0) +
      countRapidPairs (b :: rest)
  | _ => 0

/-- Factor 4 (`checkRapidChanges`): unified event list from the
`lastSeen` of every IP and fingerprint edge at or after `since`, sorted
ascending (stably), scoring the adjacent pairs under 1 s apart. -/
def checkRapidChanges (ipEdges fpEdges : List Connection) (since : String) : RiskFactor :=
  let recentEvents :=
    sortByKey IdentityEvent.timestamp
      (((ipEdges.map (fun e => IdentityEvent.ipEvent (getStrProp e.node.properties "ip") e.stats.lastSeen)) ++
        (fpEdges.map (fun e => IdentityEvent.fpEvent (getStrProp e.node.properties "fingerprint") e.stats.lastSeen))).filter
        (fun e => strLe since e.timestamp))
  if recentEvents.length < 2 then { score := 0, reason := "", details := .empty }
  else
    let rapidChanges := countRapidPairs recentEvents
    if rapidChanges > 0 then
      { score := min (rapidChanges * 15) 35
        reason := "Very rapid identity changes"
        details := .rapidChanges rapidChanges "5 minutes" recentEvents }
    else { score := 0, reason := "", details := .empty }

/-- Core of `calculateUserRisk` once the three window cutoffs have been
rendered: four bounded factor checks, summed and capped at 100. -/
def calculateUserRiskAt (last24h last1h last5m : String)
    (ipEdges fpEdges : List Connection) : RiskAssessment :=
  let recentIPs := ipEdges.filter (fun e => strLe last24h e.stats.lastSeen)
  let uniqueIPs := dedupStrs (recentIPs.map (fun e => getStrProp e.node.properties "ip"))
  let f1 : List RiskFactor :=
    if uniqueIPs.length > 3 then
      [{ score := min (uniqueIPs.length * 10) 30
         reason := "Multiple IPs in 24 hours"
         details := .multipleIPs uniqueIPs.length uniqueIPs }]
    else []
  let ipChangesLast1h :=
    (dedupStrs ((ipEdges.filter (fun e => strLe last1h e.stats.lastSeen)).map
      (fun e => getStrProp e.node.properties "ip"))).length
  let f2 : List RiskFactor :=
    if ipChangesLast1h > 2 then
      [{ score := min (ipChangesLast1h * 15) 40
         reason := "Rapid IP switching"
         details := .rapidSwitching ipChangesLast1h }]
    else []
  let recentFingerprints := fpEdges.filter (fun e => strLe last24h e.stats.lastSeen)
  let uniqueFingerprints :=
    dedupStrs (recentFingerprints.map (fun e => getStrProp e.node.properties "fingerprint"))
  let f3 : List RiskFactor :=
    if uniqueFingerprints.length > 2 then
      [{ score := min (uniqueFingerprints.length * 15) 35
         reason := "Multiple fingerprints in 24 hours"
         details := .multipleFPs uniqueFingerprints.length }]
    else []
  let rapid := checkRapidChanges ipEdges fpEdges last5m
  let f4 : List RiskFactor := if rapid.score > 0 then [rapid] else []
  let factors := f1 ++ f2 ++ f3 ++ f4
  let totalScore := min (factors.foldl (fun a f => a + f.score) 0) 100
  { score := totalScore, level := getRiskLevel totalScore, factors := factors }

/-- Risk scoring (`calculateUserRisk`) at evaluation instant `now`
(epoch milliseconds, the source's `new Date().getTime()`): renders the
24 h / 1 h / 5 m window cutoffs and scores the edges against them. -/
def calculateUserRisk (now : Int) (ipEdges fpEdges : List Connection) : RiskAssessment :=
  calculateUserRiskAt
    (millisToIso (now - 24 * 60 * 60 * 1000))
    (millisToIso (now - 60 * 60 * 1000))
    (millisToIso (now - 5 * 60 * 1000))
    ipEdges fpEdges

/-! ## Connection graph projection (`getConnectionGraph`) -/

inductive NodeKind where
  | USER | IP | FINGERPRINT
deriving DecidableEq, Repr

structure GraphNode where
  id : String
  type : NodeKind
  label : String
  risk : Option RiskLevel
  riskScore : Option Nat
  metadata : Option DeviceMetadata
  stats : ConnectionStats
deriving DecidableEq, Repr

structure GraphLink where
  source : String
  target : String
  type : String
  stats : ConnectionStats
deriving DecidableEq, Repr

structure ConnectionsResponse where
  nodes : List GraphNode
  links : List GraphLink
deriving DecidableEq, Repr

/-- Loop state of `getConnectionGraph`: the result arrays and the two
dedup sets. -/
structure GraphAcc where
  nodes : List GraphNode
  links : List GraphLink
  seenNodes : List String
  seenLinks : List String
deriving DecidableEq, Repr

/-- Endpoint node emitted for an IP edge. -/
def mkIPGraphNode (e : Connection) : GraphNode :=
  { id := e.node.id, type := .IP, label := getStrProp e.node.properties "ip"
    risk := none, riskScore := none, metadata := none, stats := e.stats }

/-- Endpoint node emitted for a fingerprint edge. -/
def mkFPGraphNode (e : Connection) : GraphNode :=
  { id := e.node.id, type := .FINGERPRINT
    label := getStrProp e.node.properties "fingerprint"
    risk := none, riskScore := none, metadata := getMetaProp e.node.properties
    stats := e.stats }

/-- USER node emitted for a surviving user; its `stats.count` is the
total number of IP plus fingerprint edges. -/
def mkUserGraphNode (user : GNode) (riskScore : Nat) (edgeTotal : Nat) : GraphNode :=
  { id := user.id, type := .USER, label := getStrProp user.properties "userId"
    risk := some (getRiskLevel riskScore), riskScore := some riskScore
    metadata := none
    stats := { firstSeen := getStrProp user.properties "firstSeen"
               lastSeen := getStrProp user.properties "lastSeen"
               count := (edgeTotal : Int) } }

/-- Inner loop body shared by the two edge loops of
`getConnectionGraph`: for an edge within the window, emit its endpoint
node if unseen and its link if unseen. -/
def edgeStep (userId cutoff : String) (mkN : Connection → GraphNode) (linkType : String)
    (acc : GraphAcc) (e : Connection) : GraphAcc :=
  if strLe cutoff e.stats.lastSeen then
    let acc1 :=
      if acc.seenNodes.contains e.node.id then acc
      else { acc with nodes := acc.nodes ++ [mkN e], seenNodes := acc.seenNodes ++ [e.node.id] }
    let linkId := userId ++ "-" ++ e.node.id
    if acc1.seenLinks.contains linkId then acc1
    else
      { acc1 with
        links := acc1.links ++
          [{ source := userId, target := e.node.id, type := linkType, stats := e.stats }]
        seenLinks := acc1.seenLinks ++ [linkId] }
  else acc

/-- Per-user loop body of `getConnectionGraph`: fetch both adjacency
lists, score, skip under the threshold or without a recent edge,
otherwise emit the USER node and walk both edge lists. -/
def userStep (s : KV) (now : Int) (cutoff : String) (riskThreshold : Nat)
    (acc : GraphAcc) (user : GNode) : GraphAcc :=
  let ipEdges := getNodeConnections s user "USES_IP"
  let fpEdges := getNodeConnections s user "USES_FINGERPRINT"
  let riskScore := (calculateUserRisk now ipEdges fpEdges).score
  if riskScore < riskThreshold then acc
  else if (ipEdges ++ fpEdges).any (fun e => strLe cutoff e.stats.lastSeen) then
    let acc := { acc with
      nodes := acc.nodes ++ [mkUserGraphNode user riskScore (ipEdges.length + fpEdges.length)]
      seenNodes := acc.seenNodes ++ [user.id] }
    let acc := ipEdges.foldl (edgeStep user.id cutoff mkIPGraphNode "USES_IP") acc
    fpEdges.foldl (edgeStep user.id cutoff mkFPGraphNode "USES_FINGERPRINT") acc
  else acc

/-- Windowed, risk-filtered subgraph (`getConnectionGraph`) at
evaluation instant `now`, with the window width in hours and the risk
threshold. Consumes the single first page of `query({type: "USER"})`. -/
def getConnectionGraph (s : KV) (now : Int) (hours riskThreshold : Nat) :
    ConnectionsResponse :=
  let cutoffTime := millisToIso (now - (hours : Int) * 60 * 60 * 1000)
  let users := query s { type := some "USER" }
  let acc := users.items.foldl (userStep s now cutoffTime riskThreshold) ⟨[], [], [], []⟩
  { nodes := acc.nodes, links := acc.links }

/-! ## Helper views of a store and concrete scenario stores -/

/-- All node records in the store. -/
def storeNodes (s : KV) : List GNode :=
  s.entries.filterMap (fun e => match e.2 with | .node n => some n | _ => none)

/-- All edge records in the store. -/
def storeEdges (s : KV) : List Edge :=
  s.entries.filterMap (fun e => match e.2 with | .edge e => some e | _ => none)

/-- Node records whose `type` property is the given string. -/
def nodesOfType (s : KV) (t : String) : List GNode :=
  (storeNodes s).filter (fun n => propsGet n.properties "type" == some (.str t))

/-- A UA classifier oracle that recognizes nothing; the tracker then
fills every metadata field with its default. -/
def uaStub : UAClassifier := fun _ => {}

/-- Scenario store of spec §8 S1/S2: the same `(u1, 1.1.1.1, fpA)`
session recorded at `2024-01-01T00:00:00Z` and again one minute later,
starting from the empty store. -/
def c3Chain : Option KV :=
  (recordConnection uaStub kvEmpty "u1" "1.1.1.1" "fpA" "Moz" "2024-01-01T00:00:00Z").bind
    (fun s => recordConnection uaStub s "u1" "1.1.1.1" "fpA" "Moz" "2024-01-01T00:01:00Z")

def c3Store : KV := c3Chain.getD kvEmpty

/-- Store with a lone pre-existing user `other` (recorded with IP
`9.9.9.9`, fingerprint `fpX`), followed by a `recordConnection` for the
never-seen user `u1`. -/
def c1Chain : Option KV :=
  (recordConnection uaStub kvEmpty "other" "9.9.9.9" "fpX" "Moz" "2024-01-01T00:00:00.000Z").bind
    (fun s => recordConnection uaStub s "u1" "1.1.1.1" "fpA" "Moz" "2024-01-01T00:00:00.500Z")

def c1Store : KV := c1Chain.getD kvEmpty

/-- Store holding only the user `other` and its one IP and fingerprint.
No node carries `userId = "u1"`. -/
def c2Chain : Option KV :=
  recordConnection uaStub kvEmpty "other" "1.2.3.4" "fpX" "Moz" "2024-01-01T00:00:00.000Z"

def c2Store : KV := c2Chain.getD kvEmpty

/-- Scenario store of spec §8 S5: `(u1, ip1, fpA)` recorded at `T`,
then `(u1, ip2, fpA)` 500 ms later. -/
def c5Chain : Option KV :=
  (recordConnection uaStub kvEmpty "u1" "ip1" "fpA" "Moz" "2024-01-01T00:00:00.000Z").bind
    (fun s => recordConnection uaStub s "u1" "ip2" "fpA" "Moz" "2024-01-01T00:00:00.500Z")

def c5Store : KV := c5Chain.getD kvEmpty

/-- The unique USER node of the S5 store. -/
def c5User : GNode := ((query c5Store { type := some "USER" }).items).headD ⟨"", [], [], []⟩

/-! ## Risk level partition -/

theorem getRiskLevel_iff (sc : Nat) :
    (getRiskLevel sc = .HIGH ↔ 70 ≤ sc) ∧
    (getRiskLevel sc = .MEDIUM ↔ 40 ≤ sc ∧ sc < 70) ∧
    (getRiskLevel sc = .LOW ↔ sc < 40) := by
  unfold getRiskLevel
  split_ifs with h1 h2 <;> refine ⟨?_, ?_, ?_⟩ <;> constructor <;> intro h <;>
    first
      | omega
      | rfl
      | (exact absurd h (by simp))

/-- Claim C4: `calculateUserRisk` always yields a score in `[0, 100]`
with the level partition `HIGH ↔ score ≥ 70`, `MEDIUM ↔ 40 ≤ score < 70`,
`LOW ↔ score < 40`, and on empty inputs returns exactly
`{score: 0, level: LOW, factors: []}`. -/
theorem calculateUserRisk_bounded (now : Int) (ipEdges fpEdges : List Connection) :
    ((calculateUserRisk now ipEdges fpEdges).score ≤ 100 ∧
      0 ≤ (calculateUserRisk now ipEdges fpEdges).score) ∧
    ((calculateUserRisk now ipEdges fpEdges).level = .HIGH ↔
      70 ≤ (calculateUserRisk now ipEdges fpEdges).score) ∧
    ((calculateUserRisk now ipEdges fpEdges).level = .MEDIUM ↔
      40 ≤ (calculateUserRisk now ipEdges fpEdges).score ∧
        (calculateUserRisk now ipEdges fpEdges).score < 70) ∧
    ((calculateUserRisk now ipEdges fpEdges).level = .LOW ↔
      (calculateUserRisk now ipEdges fpEdges).score < 40) ∧
    calculateUserRisk now [] [] = { score := 0, level := .LOW, factors := [] } := by
  have hlevel : (calculateUserRisk now ipEdges fpEdges).level
      = getRiskLevel (calculateUserRisk now ipEdges fpEdges).score := rfl
  have hscore : (calculateUserRisk now ipEdges fpEdges).score ≤ 100 :=
    min_le_right _ _
  have hempty : calculateUserRisk now [] [] = { score := 0, level := .LOW, factors := [] } := rfl
  refine ⟨⟨hscore, Nat.zero_le _⟩, ?_, ?_, ?_, hempty⟩ <;> rw [hlevel]
  · exact (getRiskLevel_iff _).1
  · exact (getRiskLevel_iff _).2.1
  · exact (getRiskLevel_iff _).2.2

/-! ## Concrete scenario theorems -/

/-- Claim C3 counterexample: the claimed repeat-session outcome —
exactly two edges, each with `count = 2` — does not hold. After
recording `(u1, 1.1.1.1, fpA)` at `2024-01-01T00:00:00Z` and again at
`2024-01-01T00:01:00Z` the store holds three edge records, not two:
during the first record the two raced edge upserts both read the user
node before either wrote it, the `USES_IP` adjacency append was lost
(last writer wins), and the second record, missing the orphaned edge on
its scan, created a duplicate `USES_IP` edge with `count = 1` instead
of incrementing the first. -/
theorem c3_repeat_session_counterexample :
    ¬ ((storeEdges c3Store).length = 2 ∧
        ∀ e ∈ storeEdges c3Store, propsGet e.properties "count" = some (.num 2)) := by
  decide

/-- Claim C3 amended (the raced repeat session of spec §5): the two
identical `recordConnection` calls leave exactly three nodes — one
USER, one IP, one FINGERPRINT — and exactly three edge records: the
first record's `USES_IP` edge with `count = 1`,
`firstSeen = lastSeen = T1`, orphaned from the user's `outEdges` by the
lost adjacency append; the `USES_FINGERPRINT` edge with `count = 2`,
`firstSeen = T1`, `lastSeen = T2`; and the second record's duplicate
`USES_IP` edge with `count = 1`, `firstSeen = lastSeen = T2`. The
user's `outEdges` holds exactly the latter two. -/
theorem c3_repeat_session_raced :
    c3Chain.isSome = true ∧
    (storeNodes c3Store).length = 3 ∧
    nodesOfType c3Store "USER" =
      [{ id := "id0"
         properties := [("type", .str "USER"), ("userId", .str "u1"),
                        ("firstSeen", .str "2024-01-01T00:00:00Z"),
                        ("lastSeen", .str "2024-01-01T00:01:00Z")]
         inEdges := [], outEdges := ["id4", "id5"] }] ∧
    (nodesOfType c3Store "IP").length = 1 ∧
    (nodesOfType c3Store "FINGERPRINT").length = 1 ∧
    storeEdges c3Store =
      [{ id := "id5", type := "USES_IP"
         properties := [("firstSeen", .str "2024-01-01T00:01:00Z"),
                        ("lastSeen", .str "2024-01-01T00:01:00Z"), ("count", .num 1)]
         fromNodeId := "id0", toNodeId := "id1" },
       { id := "id4", type := "USES_FINGERPRINT"
         properties := [("firstSeen", .str "2024-01-01T00:00:00Z"),
                        ("lastSeen", .str "2024-01-01T00:01:00Z"), ("count", .num 2)]
         fromNodeId := "id0", toNodeId := "id2" },
       { id := "id3", type := "USES_IP"
         properties := [("firstSeen", .str "2024-01-01T00:00:00Z"),
                        ("lastSeen", .str "2024-01-01T00:00:00Z"), ("count", .num 1)]
         fromNodeId := "id0", toNodeId := "id1" }] := by
  decide

/-- Claim C1: the natural-key upsert discipline fails. In `c1Store` no
USER node with `userId = "u1"` ever existed, yet `recordConnection` for
`u1` creates no USER node: because `query` ignores the
`property`/`value` filter whenever `type` is given, the upsert finds the
unrelated user `other`, rewrites its `lastSeen` with `u1`'s timestamp,
and attaches `u1`'s edges to it. The store still holds exactly one USER
node, carrying `userId = "other"`. -/
theorem c1_natural_key_upsert_violated :
    c1Chain.isSome = true ∧
    nodesOfType c1Store "USER" =
      [{ id := "id0"
         properties := [("type", .str "USER"), ("userId", .str "other"),
                        ("firstSeen", .str "2024-01-01T00:00:00.000Z"),
                        ("lastSeen", .str "2024-01-01T00:00:00.500Z")]
         inEdges := [], outEdges := ["id4", "id5"] }] ∧
    (∀ n ∈ storeNodes c1Store, propsGet n.properties "userId" ≠ some (.str "u1")) ∧
    (∀ n ∈ storeNodes c1Store, propsGet n.properties "ip" ≠ some (.str "1.1.1.1")) := by
  decide

/-- Claim C2: `getUserConnections` for an absent user does not return
empty lists. `c2Store` holds no node with `userId = "u1"`, yet
`getUserConnections "u1"` — whose `query` ignores the natural-key filter
because `type` is given — returns the connections of the unrelated user
`other`: its fingerprint connection (the `USES_IP` edge of the raced
first record was orphaned from the user's `outEdges` by the lost
adjacency append, so the `ips` list is empty). -/
theorem c2_absent_user_not_empty :
    c2Chain.isSome = true ∧
    (∀ n ∈ storeNodes c2Store, propsGet n.properties "userId" ≠ some (.str "u1")) ∧
    getUserConnections c2Store "u1" =
      { ips := []
        fingerprints := [{ fingerprint := "fpX"
                           metadata := some
                             { browser := "Unknown", browserVersion := "Unknown"
                               os := "Unknown", osVersion := "Unknown"
                               device := "Unknown", deviceType := "desktop"
                               cpu := "Unknown", userAgent := "Moz" }
                           stats := { firstSeen := "2024-01-01T00:00:00.000Z"
                                      lastSeen := "2024-01-01T00:00:00.000Z", count := 1 } }] } ∧
    getUserConnections c2Store "u1" ≠ { ips := [], fingerprints := [] } := by
  decide

/-- The IP connection entry of the S5 user, as `getNodeConnections`
computes it on `c5Store`: a single IP node (`ip1`, since the natural-key
filter is ignored the second record reuses it), reached through the
duplicate `USES_IP` edge the second record created after the raced
first record orphaned the original one — `count = 1`, both stamps at
`T + 500 ms`. -/
def c5ipConn : Connection :=
  { node := { id := "id1"
              properties := [("type", .str "IP"), ("ip", .str "ip1"),
                             ("firstSeen", .str "2024-01-01T00:00:00.000Z"),
                             ("lastSeen", .str "2024-01-01T00:00:00.500Z")]
              inEdges := ["id3", "id5"], outEdges := [] }
    stats := { firstSeen := "2024-01-01T00:00:00.500Z"
               lastSeen := "2024-01-01T00:00:00.500Z", count := 1 } }

/-- The fingerprint connection entry of the S5 user. -/
def c5fpConn : Connection :=
  { node := { id := "id2"
              properties := [("type", .str "FINGERPRINT"), ("fingerprint", .str "fpA"),
                             ("firstSeen", .str "2024-01-01T00:00:00.000Z"),
                             ("lastSeen", .str "2024-01-01T00:00:00.500Z"),
                             ("metadata", .obj
                               { browser := "Unknown", browserVersion := "Unknown"
                                 os := "Unknown", osVersion := "Unknown"
                                 device := "Unknown", deviceType := "desktop"
                                 cpu := "Unknown", userAgent := "Moz" })]
              inEdges := ["id4"], outEdges := [] }
    stats := { firstSeen := "2024-01-01T00:00:00.000Z"
               lastSeen := "2024-01-01T00:00:00.500Z", count := 2 } }

/-- Risk evaluation of the S5 edges for any cutoff rendering whose 5 m
cutoff lies at or before the events: exactly one factor — factor 4 with
one adjacent pair under 1 s — scoring `min(1*15, 35) = 15`. -/
theorem c5_core (c24 c1h c5m : String)
    (h5 : strLe c5m "2024-01-01T00:00:00.500Z" = true) :
    calculateUserRiskAt c24 c1h c5m [c5ipConn] [c5fpConn] =
      { score := 15, level := .LOW
        factors := [{ score := 15, reason := "Very rapid identity changes"
                      details := .rapidChanges 1 "5 minutes"
                        [.ipEvent "ip1" "2024-01-01T00:00:00.500Z",
                         .fpEvent "fpA" "2024-01-01T00:00:00.500Z"] }] } := by
  have hlt : strLt "2024-01-01T00:00:00.500Z" "2024-01-01T00:00:00.500Z" = false := by decide
  unfold calculateUserRiskAt checkRapidChanges
  by_cases h24 : strLe c24 "2024-01-01T00:00:00.500Z" = true <;>
    by_cases h1h : strLe c1h "2024-01-01T00:00:00.500Z" = true <;>
      simp [List.filter_cons, h24, h1h, h5, dedupStrs, sortByKey, insertSortedBy,
        countRapidPairs, getStrProp, propsGet, IdentityEvent.timestamp, getRiskLevel,
        c5ipConn, c5fpConn, hlt]

/-- Claim C5 (spec scenario S5): after recording `(u1, ip1, fpA)` at `T =
2024-01-01T00:00:00.000Z` and `(u1, ip2, fpA)` at `T + 500 ms`,
evaluating `calculateUserRisk` at any instant whose 5-minute cutoff
still precedes `T` yields exactly one factor — factor 4, "Very rapid
identity changes", counting exactly one adjacent event pair under 1 s,
scoring `min(1*15, 35) = 15` — for a total score of 15 and level LOW. -/
theorem c5_rapid_identity_change (now : Int)
    (h5 : strLe (millisToIso (now - 5 * 60 * 1000)) "2024-01-01T00:00:00.000Z" = true) :
    c5Chain.isSome = true ∧
    calculateUserRisk now (getNodeConnections c5Store c5User "USES_IP")
        (getNodeConnections c5Store c5User "USES_FINGERPRINT") =
      { score := 15, level := .LOW
        factors := [{ score := 15, reason := "Very rapid identity changes"
                      details := .rapidChanges 1 "5 minutes"
                        [.ipEvent "ip1" "2024-01-01T00:00:00.500Z",
                         .fpEvent "fpA" "2024-01-01T00:00:00.500Z"] }] } := by
  refine ⟨by decide, ?_⟩
  have hip : getNodeConnections c5Store c5User "USES_IP" = [c5ipConn] := by decide
  have hfp : getNodeConnections c5Store c5User "USES_FINGERPRINT" = [c5fpConn] := by decide
  rw [hip, hfp]
  exact c5_core _ _ _ (strLe_trans h5 (by decide))

/-- Witness for C5 at the concrete evaluation instant
`2024-01-01T00:01:00Z`, one minute after `T`. -/
theorem c5_rapid_identity_change_witness :
    strLe (millisToIso (isoToMillis "2024-01-01T00:01:00Z" - 5 * 60 * 1000))
        "2024-01-01T00:00:00.000Z" = true ∧
    (c5Chain.isSome = true ∧
      calculateUserRisk (isoToMillis "2024-01-01T00:01:00Z")
          (getNodeConnections c5Store c5User "USES_IP")
          (getNodeConnections c5Store c5User "USES_FINGERPRINT") =
        { score := 15, level := .LOW
          factors := [{ score := 15, reason := "Very rapid identity changes"
                        details := .rapidChanges 1 "5 minutes"
                          [.ipEvent "ip1" "2024-01-01T00:00:00.500Z",
                           .fpEvent "fpA" "2024-01-01T00:00:00.500Z"] }] }) :=
  ⟨by decide, c5_rapid_identity_change (isoToMillis "2024-01-01T00:01:00Z") (by decide)⟩

/-! ## Query layer properties -/

theorem kvListOf_incomplete (rest : List String) (limit : Nat) (hpos : 0 < limit)
    (h : (kvListOf rest limit).list_complete = false) :
    (kvListOf rest limit).keys.length = limit ∧ (kvListOf rest limit).cursor.isSome = true := by
  simp only [kvListOf, decide_eq_false_iff_not, not_le] at h ⊢
  refine ⟨by simp [List.length_take]; omega, ?_⟩
  rw [if_neg (by omega)]
  rw [List.getLast?_isSome]
  have : (rest.take limit).length = limit := by simp [List.length_take]; omega
  intro hnil
  rw [hnil] at this
  simp at this
  omega

/-- Claim C9: every `query` returns at most `limit` items; each item was
fetched under the node id extracted as the substring after the last
`':'` of one of the listed index keys; and the result carries a cursor
iff the store returned more than `limit` keys and the listing was not
complete. -/
theorem query_limit_extract_cursor (s : KV) (o : QueryOptions) :
    (query s o).items.length ≤ o.limit.getD 100 ∧
    (∀ n ∈ (query s o).items,
      ∃ k ∈ (kvList s (queryPfx o) (o.limit.getD 100 + 1) o.cursor).keys.take (o.limit.getD 100),
        getNode s (extractId k) = some n) ∧
    ((query s o).cursor.isSome = true ↔
      (o.limit.getD 100 < (kvList s (queryPfx o) (o.limit.getD 100 + 1) o.cursor).keys.length ∧
        (kvList s (queryPfx o) (o.limit.getD 100 + 1) o.cursor).list_complete = false)) := by
  refine ⟨?_, ?_, ?_⟩
  · calc (query s o).items.length
        ≤ (((kvList s (queryPfx o) (o.limit.getD 100 + 1) o.cursor).keys.take
            (o.limit.getD 100)).map extractId).length := List.length_filterMap_le _ _
      _ ≤ o.limit.getD 100 := by simp [List.length_take]
  · intro n hn
    simp only [query, List.mem_filterMap, List.mem_map] at hn
    obtain ⟨i, ⟨k, hk, hik⟩, hget⟩ := hn
    exact ⟨k, hk, hik ▸ hget⟩
  · show (if (kvList s (queryPfx o) (o.limit.getD 100 + 1) o.cursor).list_complete = true
        then none
        else (kvList s (queryPfx o) (o.limit.getD 100 + 1) o.cursor).cursor).isSome = true ↔ _
    cases hc : (kvList s (queryPfx o) (o.limit.getD 100 + 1) o.cursor).list_complete with
    | true => simp [hc]
    | false =>
      rw [kvList] at hc ⊢
      obtain ⟨hlen, hcur⟩ := kvListOf_incomplete _ _ (Nat.succ_pos _) hc
      simp [hcur, hlen, hc]

/-- Claim C10 (amended): whenever a non-empty `type` option is supplied,
the listing prefix is `index:type:<type>:` and the `property`/`value`
options have no effect on the result. (For the empty string — falsy in
JavaScript — the `type` branch is skipped; see the counterexample.) -/
theorem query_type_shadows_property (s : KV) (t : String) (p : Option String)
    (v : Option Value) (lim : Option Nat) (cur : Option String) (ht : t ≠ "") :
    queryPfx { type := some t, property := p, value := v, limit := lim, cursor := cur }
      = "index:type:" ++ t ++ ":" ∧
    query s { type := some t, property := p, value := v, limit := lim, cursor := cur }
      = query s { type := some t, property := none, value := none, limit := lim, cursor := cur } := by
  have hpfx : ∀ p' v', queryPfx { type := some t, property := p', value := v', limit := lim, cursor := cur }
      = "index:type:" ++ t ++ ":" := by
    intro p' v'
    simp [queryPfx, strTruthy, ht]
  exact ⟨hpfx p v, by unfold query; rw [hpfx, hpfx]⟩

/-- Witness for C10: instantiated at `type = "USER"` on the S1/S2 store. -/
theorem query_type_shadows_property_witness :
    ("USER" ≠ "") ∧
    query c3Store { type := some "USER", property := some "userId"
                    value := some (.str "nobody"), limit := none, cursor := none }
      = query c3Store { type := some "USER", property := none, value := none
                        limit := none, cursor := none } :=
  ⟨by decide,
    (query_type_shadows_property c3Store "USER" (some "userId") (some (.str "nobody"))
      none none (by decide)).2⟩

/-- Store with two nodes carrying distinct single properties, separating
the two queries of the C10 counterexample. -/
def c10Store : KV := (createNode (createNode kvEmpty [("a", .str "x")]).2 [("b", .str "y")]).2

/-- Counterexample to claim C10 as stated: with the `type` option
provided as the empty string — falsy in JavaScript — the prefix is not
`index:type::` and the `property`/`value` options do change the
result. -/
theorem query_empty_type_not_shadowed :
    queryPfx { type := some "", property := some "a", value := some (.str "x")
               limit := none, cursor := none } ≠ "index:type:" ++ "" ++ ":" ∧
    query c10Store { type := some "", property := some "a", value := some (.str "x")
                     limit := none, cursor := none }
      ≠ query c10Store { type := some "", property := none, value := none
                         limit := none, cursor := none } := by
  decide

/-! ## Store and key lemmas -/

theorem strAppend_left_cancel {p a b : String} (h : p ++ a = p ++ b) : a = b := by
  have h2 : (p ++ a).data = (p ++ b).data := by rw [h]
  rw [String.data_append, String.data_append] at h2
  exact String.ext (List.append_cancel_left h2)

theorem nodeKey_inj {a b : String} (h : nodeKey a = nodeKey b) : a = b :=
  strAppend_left_cancel h

theorem edgeKey_inj {a b : String} (h : edgeKey a = edgeKey b) : a = b :=
  strAppend_left_cancel h

theorem nodeKey_ne_edgeKey (a b : String) : nodeKey a ≠ edgeKey b := by
  intro h
  have h2 : (nodeKey a).data = (edgeKey b).data := by rw [h]
  rw [nodeKey, edgeKey, String.data_append, String.data_append] at h2
  simp at h2

theorem idxKeyStr_ne_nodeKey (k v id a : String) : idxKeyStr k v id ≠ nodeKey a := by
  intro h
  have h2 : (idxKeyStr k v id).data = (nodeKey a).data := by rw [h]
  rw [idxKeyStr, nodeKey] at h2
  simp only [String.data_append] at h2
  simp at h2

theorem idxKeyStr_ne_edgeKey (k v id a : String) : idxKeyStr k v id ≠ edgeKey a := by
  intro h
  have h2 : (idxKeyStr k v id).data = (edgeKey a).data := by rw [h]
  rw [idxKeyStr, edgeKey] at h2
  simp only [String.data_append] at h2
  simp at h2

theorem find?_filter_ne (l : List (String × StoreVal)) (k k' : String) (h : k' ≠ k) :
    (l.filter (fun e => !(e.1 == k))).find? (fun e => e.1 == k')
      = l.find? (fun e => e.1 == k') := by
  induction l with
  | nil => rfl
  | cons e es ih =>
    by_cases he : e.1 = k
    · have h1 : (e.1 == k) = true := by simp [he]
      have h2 : (e.1 == k') = false := by
        simp only [beq_eq_false_iff_ne, ne_eq, he]
        exact fun hh => h hh.symm
      simp [List.filter_cons, h1, List.find?_cons, h2, ih]
    · have h1 : (e.1 == k) = false := by simp [he]
      by_cases he' : e.1 = k'
      · simp [List.filter_cons, h1, List.find?_cons, he', h]
      · have h2 : (e.1 == k') = false := by simp [he']
        simp [List.filter_cons, h1, List.find?_cons, h2, ih]

theorem kvGet_put (s : KV) (k : String) (v : StoreVal) (k' : String) :
    kvGet (kvPut s k v) k' = if k' = k then some v else kvGet s k' := by
  by_cases h : k' = k
  · subst h
    simp [kvGet, kvPut, List.find?_cons]
  · rw [if_neg h]
    have hk : (k == k') = false := by
      simp only [beq_eq_false_iff_ne, ne_eq]
      exact fun hh => h hh.symm
    simp only [kvGet, kvPut, List.find?_cons, hk]
    rw [find?_filter_ne _ _ _ h]

theorem kvGet_delete (s : KV) (k : String) (k' : String) :
    kvGet (kvDelete s k) k' = if k' = k then none else kvGet s k' := by
  by_cases h : k' = k
  · subst h
    simp only [kvGet, kvDelete, if_pos rfl]
    induction s.entries with
    | nil => rfl
    | cons e es ih =>
      by_cases he : e.1 = k'
      · simp [List.filter_cons, he, ih]
      · have h2 : (e.1 == k') = false := by simp [he]
        simp [List.filter_cons, h2, List.find?_cons, ih]
  · rw [if_neg h]
    simp only [kvGet, kvDelete]
    rw [find?_filter_ne _ _ _ h]

theorem getNode_put_node (s : KV) (id : String) (n : GNode) (id' : String) :
    getNode (kvPut s (nodeKey id) (.node n)) id'
      = if id' = id then some n else getNode s id' := by
  by_cases h : id' = id
  · subst h
    simp [getNode, kvGet_put]
  · rw [if_neg h]
    rw [getNode, kvGet_put, if_neg (fun hh => h (nodeKey_inj hh))]
    rfl

theorem getNode_put_edge (s : KV) (eid : String) (v : StoreVal) (id : String) :
    getNode (kvPut s (edgeKey eid) v) id = getNode s id := by
  rw [getNode, kvGet_put, if_neg (nodeKey_ne_edgeKey id eid)]
  rfl

theorem getEdge_put_node (s : KV) (id : String) (v : StoreVal) (eid : String) :
    getEdge (kvPut s (nodeKey id) v) eid = getEdge s eid := by
  rw [getEdge, kvGet_put, if_neg (fun hh => nodeKey_ne_edgeKey id eid hh.symm)]
  rfl

theorem getEdge_put_edge (s : KV) (eid : String) (e : Edge) (eid' : String) :
    getEdge (kvPut s (edgeKey eid) (.edge e)) eid'
      = if eid' = eid then some e else getEdge s eid' := by
  by_cases h : eid' = eid
  · subst h
    simp [getEdge, kvGet_put]
  · rw [if_neg h]
    rw [getEdge, kvGet_put, if_neg (fun hh => h (edgeKey_inj hh))]
    rfl

/-! ## Claim C8: createEdge -/

/-- Claim C8 (amended): `createEdge` fails iff at least one endpoint is
missing; when both endpoints exist and are distinct, it returns a fresh
edge whose id afterwards appears in the source node's `outEdges` and
the target node's `inEdges`, and `getEdge` on the new store round-trips
the type, properties and endpoint ids. (For `a = b` the two rewrites of
the same node record race and the later `inEdges` write wins; see the
counterexample.) -/
theorem createEdge_spec (s : KV) (a b t : String) (p : Props) :
    ((createEdge s a b t p).1 = none ↔ (getNode s a = none ∨ getNode s b = none)) ∧
    (∀ e, a ≠ b → (createEdge s a b t p).1 = some e →
      (∃ na, getNode (createEdge s a b t p).2 a = some na ∧ e.id ∈ na.outEdges) ∧
      (∃ nb, getNode (createEdge s a b t p).2 b = some nb ∧ e.id ∈ nb.inEdges) ∧
      getEdge (createEdge s a b t p).2 e.id = some e ∧
      e.type = t ∧ e.properties = p ∧ e.fromNodeId = a ∧ e.toNodeId = b) := by
  cases hA : getNode s a with
  | none =>
    constructor
    · simp [createEdge, hA]
    · intro e _ he
      rw [createEdge, hA] at he
      simp at he
  | some na =>
    cases hB : getNode s b with
    | none =>
      constructor
      · simp [createEdge, hA, hB]
      · intro e _ he
        rw [createEdge, hA, hB] at he
        simp at he
    | some nb =>
      constructor
      · simp [createEdge, hA, hB]
      · intro e hne he
        rw [createEdge, hA, hB] at he ⊢
        simp only [freshId] at he ⊢
        simp only [Option.some.injEq] at he
        subst he
        refine ⟨⟨{ na with outEdges := na.outEdges ++ [genId s.nextId] }, ?_, by simp⟩,
          ⟨{ nb with inEdges := nb.inEdges ++ [genId s.nextId] }, ?_, by simp⟩, ?_, rfl, rfl, rfl, rfl⟩
        · rw [getNode_put_node, if_neg hne, getNode_put_node, if_pos rfl]
        · rw [getNode_put_node, if_pos rfl]
        · rw [getEdge_put_node, getEdge_put_node, getEdge_put_edge, if_pos rfl]

/-- The edge `createEdge` allocates on `c10Store` in the C8 witness. -/
def c8Edge : Edge :=
  { id := "id2", type := "E", properties := [], fromNodeId := "id0", toNodeId := "id1" }

/-- Witness for C8 on a two-node store. -/
theorem createEdge_spec_witness :
    ("id0" ≠ "id1") ∧
    ((createEdge c10Store "id0" "id1" "E" []).1 = some c8Edge) ∧
    ((∃ na, getNode (createEdge c10Store "id0" "id1" "E" []).2 "id0" = some na ∧
        c8Edge.id ∈ na.outEdges) ∧
      (∃ nb, getNode (createEdge c10Store "id0" "id1" "E" []).2 "id1" = some nb ∧
        c8Edge.id ∈ nb.inEdges) ∧
      getEdge (createEdge c10Store "id0" "id1" "E" []).2 c8Edge.id = some c8Edge ∧
      c8Edge.type = "E" ∧ c8Edge.properties = [] ∧ c8Edge.fromNodeId = "id0" ∧
        c8Edge.toNodeId = "id1") :=
  ⟨by decide, by decide,
    (createEdge_spec c10Store "id0" "id1" "E" []).2 c8Edge (by decide) (by decide)⟩

/-- Counterexample to claim C8 as stated: a self-edge (`a = b`). Both
endpoints exist and `createEdge` succeeds, but the edge id does not end
up in `a.outEdges`: the `outEdges` rewrite of the node record is
overwritten by the `inEdges` rewrite of the same record. -/
theorem createEdge_self_loses_outEdge :
    (createEdge c10Store "id0" "id0" "E" []).1 = some
      { id := "id2", type := "E", properties := [], fromNodeId := "id0", toNodeId := "id0" } ∧
    getNode (createEdge c10Store "id0" "id0" "E" []).2 "id0" = some
      { id := "id0", properties := [("a", .str "x")], inEdges := ["id2"], outEdges := [] } ∧
    (∀ n, getNode (createEdge c10Store "id0" "id0" "E" []).2 "id0" = some n →
      "id2" ∉ n.outEdges) := by
  decide

/-! ## Claim C6: window and threshold filtering of getConnectionGraph -/

/-- A link's stats lie inside the window (compared as ISO-8601
strings, the comparison the source performs). -/
def linkInWindow (cutoff : String) (l : GraphLink) : Prop :=
  strLe cutoff l.stats.lastSeen = true

/-- What `getConnectionGraph` guarantees for an emitted USER node: it
stems from a queried user whose risk score was computed and met the
threshold, and who has at least one connection inside the window. -/
def userNodeOk (s : KV) (now : Int) (cutoff : String) (r : Nat) (users : List GNode)
    (n : GraphNode) : Prop :=
  n.type = .USER →
    ∃ u ∈ users, n.id = u.id ∧
      n.riskScore = some (calculateUserRisk now (getNodeConnections s u "USES_IP")
        (getNodeConnections s u "USES_FINGERPRINT")).score ∧
      r ≤ (calculateUserRisk now (getNodeConnections s u "USES_IP")
        (getNodeConnections s u "USES_FINGERPRINT")).score ∧
      ∃ c ∈ getNodeConnections s u "USES_IP" ++ getNodeConnections s u "USES_FINGERPRINT",
        strLe cutoff c.stats.lastSeen = true

theorem edgeStep_inv (uid cutoff : String) (mkN : Connection → GraphNode) (lt : String)
    (P : GraphNode → Prop) (hmk : ∀ e, P (mkN e)) (acc : GraphAcc) (e : Connection)
    (hl : ∀ l ∈ acc.links, linkInWindow cutoff l) (hn : ∀ n ∈ acc.nodes, P n) :
    (∀ l ∈ (edgeStep uid cutoff mkN lt acc e).links, linkInWindow cutoff l) ∧
    (∀ n ∈ (edgeStep uid cutoff mkN lt acc e).nodes, P n) := by
  unfold edgeStep
  cases hcond : strLe cutoff e.stats.lastSeen with
  | false => simp only [hcond]; exact ⟨hl, hn⟩
  | true =>
    simp only [hcond, if_true]
    constructor
    · intro l hlmem
      split at hlmem <;> split at hlmem <;>
        first
          | exact hl l hlmem
          | (rcases List.mem_append.mp hlmem with h | h
             · exact hl l h
             · rw [List.mem_singleton.mp h]; exact hcond)
    · intro n hnmem
      split at hnmem <;> split at hnmem <;>
        first
          | exact hn n hnmem
          | (rcases List.mem_append.mp hnmem with h | h
             · exact hn n h
             · rw [List.mem_singleton.mp h]; exact hmk e)

theorem foldl_edgeStep_inv (uid cutoff : String) (mkN : Connection → GraphNode) (lt : String)
    (P : GraphNode → Prop) (hmk : ∀ e, P (mkN e)) (es : List Connection) :
    ∀ (acc : GraphAcc),
    (∀ l ∈ acc.links, linkInWindow cutoff l) → (∀ n ∈ acc.nodes, P n) →
    (∀ l ∈ (es.foldl (edgeStep uid cutoff mkN lt) acc).links, linkInWindow cutoff l) ∧
    (∀ n ∈ (es.foldl (edgeStep uid cutoff mkN lt) acc).nodes, P n) := by
  induction es with
  | nil => intro acc hl hn; exact ⟨hl, hn⟩
  | cons e es ih =>
    intro acc hl hn
    obtain ⟨hl', hn'⟩ := edgeStep_inv uid cutoff mkN lt P hmk acc e hl hn
    exact ih _ hl' hn'

theorem userStep_inv (s : KV) (now : Int) (cutoff : String) (r : Nat) (users₀ : List GNode)
    (acc : GraphAcc) (user : GNode) (huser : user ∈ users₀)
    (hl : ∀ l ∈ acc.links, linkInWindow cutoff l)
    (hn : ∀ n ∈ acc.nodes, userNodeOk s now cutoff r users₀ n) :
    (∀ l ∈ (userStep s now cutoff r acc user).links, linkInWindow cutoff l) ∧
    (∀ n ∈ (userStep s now cutoff r acc user).nodes, userNodeOk s now cutoff r users₀ n) := by
  unfold userStep
  by_cases hth : (calculateUserRisk now (getNodeConnections s user "USES_IP")
      (getNodeConnections s user "USES_FINGERPRINT")).score < r
  · rw [if_pos hth]
    exact ⟨hl, hn⟩
  · rw [if_neg hth]
    cases hrec : (getNodeConnections s user "USES_IP" ++
        getNodeConnections s user "USES_FINGERPRINT").any
        (fun e => strLe cutoff e.stats.lastSeen) with
    | false =>
      rw [if_neg (by simp [hrec])]
      exact ⟨hl, hn⟩
    | true =>
      rw [if_pos (by simp [hrec])]
      have hacc1n : ∀ n ∈ ({ acc with
          nodes := acc.nodes ++ [mkUserGraphNode user
            (calculateUserRisk now (getNodeConnections s user "USES_IP")
              (getNodeConnections s user "USES_FINGERPRINT")).score
            ((getNodeConnections s user "USES_IP").length +
              (getNodeConnections s user "USES_FINGERPRINT").length)]
          seenNodes := acc.seenNodes ++ [user.id] } : GraphAcc).nodes,
          userNodeOk s now cutoff r users₀ n := by
        intro n hnmem
        rcases List.mem_append.mp hnmem with h | h
        · exact hn n h
        · rw [List.mem_singleton.mp h]
          intro _
          refine ⟨user, huser, rfl, rfl, Nat.le_of_not_lt hth, ?_⟩
          obtain ⟨c, hc, hcw⟩ := List.any_eq_true.mp hrec
          exact ⟨c, hc, hcw⟩
      obtain ⟨hl2, hn2⟩ := foldl_edgeStep_inv user.id cutoff mkIPGraphNode "USES_IP"
        (userNodeOk s now cutoff r users₀) (fun e => by intro hty; simp [mkIPGraphNode] at hty)
        (getNodeConnections s user "USES_IP")
        ({ acc with
          nodes := acc.nodes ++ [mkUserGraphNode user
            (calculateUserRisk now (getNodeConnections s user "USES_IP")
              (getNodeConnections s user "USES_FINGERPRINT")).score
            ((getNodeConnections s user "USES_IP").length +
              (getNodeConnections s user "USES_FINGERPRINT").length)]
          seenNodes := acc.seenNodes ++ [user.id] } : GraphAcc)
        hl hacc1n
      exact foldl_edgeStep_inv user.id cutoff mkFPGraphNode "USES_FINGERPRINT"
        (userNodeOk s now cutoff r users₀) (fun e => by intro hty; simp [mkFPGraphNode] at hty)
        (getNodeConnections s user "USES_FINGERPRINT") _ hl2 hn2

theorem foldl_userStep_inv (s : KV) (now : Int) (cutoff : String) (r : Nat)
    (users₀ : List GNode) (l : List GNode) :
    ∀ (acc : GraphAcc), (∀ u ∈ l, u ∈ users₀) →
    (∀ x ∈ acc.links, linkInWindow cutoff x) →
    (∀ n ∈ acc.nodes, userNodeOk s now cutoff r users₀ n) →
    (∀ x ∈ (l.foldl (userStep s now cutoff r) acc).links, linkInWindow cutoff x) ∧
    (∀ n ∈ (l.foldl (userStep s now cutoff r) acc).nodes, userNodeOk s now cutoff r users₀ n) := by
  induction l with
  | nil => intro acc _ hl hn; exact ⟨hl, hn⟩
  | cons u us ih =>
    intro acc hmem hl hn
    obtain ⟨hl', hn'⟩ := userStep_inv s now cutoff r users₀ acc u
      (hmem u (List.mem_cons_self u us)) hl hn
    exact ih _ (fun x hx => hmem x (List.mem_cons_of_mem u hx)) hl' hn'

/-- Claim C6: every link of `getConnectionGraph({hours, riskThreshold})`
has `stats.lastSeen ≥ now - hours` (as ISO-8601 strings), and every USER
node of the output stems from a queried user with risk score at least
`riskThreshold` carrying at least one `USES_IP` or `USES_FINGERPRINT`
connection whose `lastSeen` lies inside the window. -/
theorem getConnectionGraph_window_threshold (s : KV) (now : Int) (hours riskThreshold : Nat) :
    (∀ l ∈ (getConnectionGraph s now hours riskThreshold).links,
      linkInWindow (millisToIso (now - (hours : Int) * 60 * 60 * 1000)) l) ∧
    (∀ n ∈ (getConnectionGraph s now hours riskThreshold).nodes,
      userNodeOk s now (millisToIso (now - (hours : Int) * 60 * 60 * 1000)) riskThreshold
        (query s { type := some "USER" }).items n) := by
  obtain ⟨hl, hn⟩ := foldl_userStep_inv s now
    (millisToIso (now - (hours : Int) * 60 * 60 * 1000)) riskThreshold
    (query s { type := some "USER" }).items (query s { type := some "USER" }).items
    ⟨[], [], [], []⟩ (fun _ hx => hx) (by intro x hx; simp at hx) (by intro x hx; simp at hx)
  exact ⟨hl, hn⟩

/-- Witness for C6: the `USES_FINGERPRINT` link (the `USES_IP` edge of
the raced record is orphaned from the user's adjacency) and the USER
node that `getConnectionGraph({hours: 24, riskThreshold: 0})` emits on
the single-user store, evaluated one hour after the session. -/
theorem getConnectionGraph_window_threshold_witness :
    ({ source := "id0", target := "id2", type := "USES_FINGERPRINT"
       stats := { firstSeen := "2024-01-01T00:00:00.000Z"
                  lastSeen := "2024-01-01T00:00:00.000Z", count := 1 } } : GraphLink)
        ∈ (getConnectionGraph c2Store (isoToMillis "2024-01-01T01:00:00Z") 24 0).links ∧
    linkInWindow
      (millisToIso (isoToMillis "2024-01-01T01:00:00Z" - ((24 : Nat) : Int) * 60 * 60 * 1000))
      { source := "id0", target := "id2", type := "USES_FINGERPRINT"
        stats := { firstSeen := "2024-01-01T00:00:00.000Z"
                   lastSeen := "2024-01-01T00:00:00.000Z", count := 1 } } ∧
    userNodeOk c2Store (isoToMillis "2024-01-01T01:00:00Z")
      (millisToIso (isoToMillis "2024-01-01T01:00:00Z" - ((24 : Nat) : Int) * 60 * 60 * 1000)) 0
      (query c2Store { type := some "USER" }).items
      { id := "id0", type := .USER, label := "other"
        risk := some .LOW, riskScore := some 0, metadata := none
        stats := { firstSeen := "2024-01-01T00:00:00.000Z"
                   lastSeen := "2024-01-01T00:00:00.000Z", count := 1 } } :=
  ⟨by decide,
    (getConnectionGraph_window_threshold c2Store (isoToMillis "2024-01-01T01:00:00Z") 24 0).1
      _ (by decide),
    (getConnectionGraph_window_threshold c2Store (isoToMillis "2024-01-01T01:00:00Z") 24 0).2
      _ (by decide)⟩

/-- Witness for C9 on the single-user store with the default limit. -/
theorem query_limit_extract_cursor_witness :
    ∃ k ∈ (kvList c2Store (queryPfx { type := some "USER" })
        (({ type := some "USER" } : QueryOptions).limit.getD 100 + 1)
        ({ type := some "USER" } : QueryOptions).cursor).keys.take
        (({ type := some "USER" } : QueryOptions).limit.getD 100),
      getNode c2Store (extractId k) = some
        { id := "id0"
          properties := [("type", .str "USER"), ("userId", .str "other"),
                         ("firstSeen", .str "2024-01-01T00:00:00.000Z"),
                         ("lastSeen", .str "2024-01-01T00:00:00.000Z")]
          inEdges := [], outEdges := ["id4"] } :=
  (query_limit_extract_cursor c2Store { type := some "USER" }).2.1 _ (by decide)

/-! ## Claim C7: index consistency under createNode/updateNode/deleteNode

The index keys are built by raw string interpolation, so distinct
`(key, value, nodeId)` triples can denote the same store key whenever
the interpolated parts contain `':'`. The node id, however, is always
recoverable: it is the (colon-free) segment after the key's last `':'`.
The lemmas below develop exactly that arithmetic of colon-separated
segments. -/

theorem length_takeWhile_le' (p : Char → Bool) (l : List Char) :
    (l.takeWhile p).length ≤ l.length := by
  induction l with
  | nil => simp
  | cons x xs ih =>
    simp only [List.takeWhile_cons]
    cases p x <;> simp
    omega

theorem takeWhile_no_colon (a rest : List Char) (h : ':' ∉ a) :
    (a ++ ':' :: rest).takeWhile (fun c => !(c == ':')) = a := by
  induction a with
  | nil => simp [List.takeWhile_cons]
  | cons x xs ih =>
    have hx : (x == ':') = false := by
      simp only [beq_eq_false_iff_ne, ne_eq]
      exact fun hh => h (hh ▸ List.mem_cons_self x xs)
    simp only [List.cons_append, List.takeWhile_cons, hx, Bool.not_false]
    simp [ih (fun hm => h (List.mem_cons_of_mem x hm))]

theorem dropWhile_no_colon (a rest : List Char) (h : ':' ∉ a) :
    (a ++ ':' :: rest).dropWhile (fun c => !(c == ':')) = ':' :: rest := by
  induction a with
  | nil => simp [List.dropWhile_cons]
  | cons x xs ih =>
    have hx : (x == ':') = false := by
      simp only [beq_eq_false_iff_ne, ne_eq]
      exact fun hh => h (hh ▸ List.mem_cons_self x xs)
    simp only [List.cons_append, List.dropWhile_cons, hx, Bool.not_false]
    exact ih (fun hm => h (List.mem_cons_of_mem x hm))

theorem takeWhile_stop (a b : List Char) (h : ':' ∈ a) :
    (a ++ b).takeWhile (fun c => !(c == ':')) = a.takeWhile (fun c => !(c == ':')) := by
  induction a with
  | nil => simp at h
  | cons x xs ih =>
    by_cases hx : x = ':'
    · subst hx
      simp [List.takeWhile_cons]
    · have hxb : (x == ':') = false := by simp [hx]
      have hm : ':' ∈ xs := by
        rcases List.mem_cons.mp h with h1 | h1
        · exact absurd h1.symm hx
        · exact h1
      simp only [List.cons_append, List.takeWhile_cons, hxb, Bool.not_false]
      rw [ih hm]

theorem dropWhile_stop (a b : List Char) (h : ':' ∈ a) :
    (a ++ b).dropWhile (fun c => !(c == ':')) = a.dropWhile (fun c => !(c == ':')) ++ b := by
  induction a with
  | nil => simp at h
  | cons x xs ih =>
    by_cases hx : x = ':'
    · subst hx
      simp [List.dropWhile_cons]
    · have hxb : (x == ':') = false := by simp [hx]
      have hm : ':' ∈ xs := by
        rcases List.mem_cons.mp h with h1 | h1
        · exact absurd h1.symm hx
        · exact h1
      simp only [List.cons_append, List.dropWhile_cons, hxb, Bool.not_false]
      exact ih hm

theorem dropWhile_mem_colon (a : List Char) (h : ':' ∈ a) :
    ∃ w, a.dropWhile (fun c => !(c == ':')) = ':' :: w := by
  induction a with
  | nil => simp at h
  | cons x xs ih =>
    by_cases hx : x = ':'
    · subst hx
      exact ⟨xs, by simp [List.dropWhile_cons]⟩
    · have hxb : (x == ':') = false := by simp [hx]
      have hm : ':' ∈ xs := by
        rcases List.mem_cons.mp h with h1 | h1
        · exact absurd h1.symm hx
        · exact h1
      simp only [List.dropWhile_cons, hxb, Bool.not_false]
      exact ih hm

/-- The colon-free segment after a `':'` is determined by the whole
string. -/
theorem afterColon_eq {y₁ y₂ a₁ a₂ : List Char}
    (h : y₁ ++ ':' :: a₁ = y₂ ++ ':' :: a₂) (h1 : ':' ∉ a₁) (h2 : ':' ∉ a₂) :
    a₁ = a₂ := by
  have hr : a₁.reverse ++ ':' :: y₁.reverse = a₂.reverse ++ ':' :: y₂.reverse := by
    have := congrArg List.reverse h
    simpa [List.reverse_append, List.append_assoc] using this
  have ht := congrArg (List.takeWhile (fun c => !(c == ':'))) hr
  rw [takeWhile_no_colon _ _ (by simpa using h1), takeWhile_no_colon _ _ (by simpa using h2)] at ht
  have := congrArg List.reverse ht
  simpa using this

/-- When the first two segments of a colon-separated string are
colon-free, they are determined by the whole string. -/
theorem seg2_inj (x x₂ y y₂ t : List Char) (hx : ':' ∉ x) (hy : ':' ∉ y)
    (h : x ++ ':' :: (y ++ ':' :: t) = x₂ ++ ':' :: (y₂ ++ ':' :: t)) :
    x = x₂ ∧ y = y₂ := by
  by_cases hx₂ : ':' ∈ x₂
  · exfalso
    have hdw := congrArg (List.dropWhile (fun c => !(c == ':'))) h
    rw [dropWhile_no_colon _ _ hx, dropWhile_stop _ _ hx₂] at hdw
    obtain ⟨w, hw⟩ := dropWhile_mem_colon x₂ hx₂
    rw [hw] at hdw
    simp only [List.cons_append, List.cons.injEq, true_and] at hdw
    have hlen := congrArg List.length hdw
    simp only [List.length_append, List.length_cons] at hlen
    by_cases hwc : ':' ∈ w
    · have htw := congrArg (List.takeWhile (fun c => !(c == ':'))) hdw
      rw [takeWhile_no_colon _ _ hy, takeWhile_stop _ _ hwc] at htw
      have := congrArg List.length htw
      have hle := length_takeWhile_le' (fun c => !(c == ':')) w
      omega
    · have htw := congrArg (List.takeWhile (fun c => !(c == ':'))) hdw
      rw [takeWhile_no_colon _ _ hy, takeWhile_no_colon _ _ hwc] at htw
      have := congrArg List.length htw
      omega
  · have htw := congrArg (List.takeWhile (fun c => !(c == ':'))) h
    rw [takeWhile_no_colon _ _ hx, takeWhile_no_colon _ _ hx₂] at htw
    subst htw
    have hdw := congrArg (List.dropWhile (fun c => !(c == ':'))) h
    rw [dropWhile_no_colon _ _ hx, dropWhile_no_colon _ _ hx₂] at hdw
    simp only [List.cons.injEq, true_and] at hdw
    by_cases hy₂ : ':' ∈ y₂
    · exfalso
      have hdw2 := congrArg (List.dropWhile (fun c => !(c == ':'))) hdw
      rw [dropWhile_no_colon _ _ hy, dropWhile_stop _ _ hy₂] at hdw2
      obtain ⟨w, hw⟩ := dropWhile_mem_colon y₂ hy₂
      rw [hw] at hdw2
      simp only [List.cons_append, List.cons.injEq, true_and] at hdw2
      have := congrArg List.length hdw2
      simp only [List.length_append, List.length_cons] at this
      omega
    · have htw2 := congrArg (List.takeWhile (fun c => !(c == ':'))) hdw
      rw [takeWhile_no_colon _ _ hy, takeWhile_no_colon _ _ hy₂] at htw2
      exact ⟨rfl, htw2⟩

/-! ### Generated identifiers are colon-free and distinct -/

theorem digitChar_ne_colon (r : Nat) : digitChar r ≠ ':' := by
  unfold digitChar
  split <;> decide

theorem digitChar_inj :
    ∀ x, x < 10 → ∀ y, y < 10 → digitChar x = digitChar y → x = y := by
  decide

theorem mem_natDigitsAux_digit :
    ∀ fuel n c, c ∈ natDigitsAux fuel n → ∃ r, c = digitChar r := by
  intro fuel
  induction fuel with
  | zero => intro n c hc; simp [natDigitsAux] at hc
  | succ f ih =>
    intro n c hc
    unfold natDigitsAux at hc
    split at hc
    · simp at hc
    · rcases List.mem_append.mp hc with h | h
      · exact ih _ _ h
      · exact ⟨n % 10, List.mem_singleton.mp h⟩

theorem noColon_natToStr (n : Nat) : ':' ∉ (natToStr n).data := by
  unfold natToStr
  split
  · decide
  · intro hmem
    obtain ⟨r, hr⟩ := mem_natDigitsAux_digit n n ':' hmem
    exact digitChar_ne_colon r hr.symm

theorem noColon_genId (m : Nat) : NoColon (genId m) := by
  unfold NoColon genId
  rw [String.data_append]
  intro h
  rcases List.mem_append.mp h with h1 | h1
  · simp at h1
  · exact noColon_natToStr m h1

theorem natDigits_eq_nil {n : Nat} (h : natDigits n = []) : n = 0 := by
  by_contra hpos
  rw [natDigits_pos n (Nat.pos_of_ne_zero hpos)] at h
  simp at h

theorem natDigits_inj : ∀ a b, natDigits a = natDigits b → a = b := by
  intro a
  induction a using Nat.strong_induction_on with
  | _ a ih =>
    intro b h
    rcases Nat.eq_zero_or_pos a with ha | ha
    · subst ha
      exact (natDigits_eq_nil h.symm).symm
    · rcases Nat.eq_zero_or_pos b with hb | hb
      · subst hb
        exact absurd (natDigits_eq_nil h) (Nat.pos_iff_ne_zero.mp ha)
      · rw [natDigits_pos a ha, natDigits_pos b hb] at h
        have hr := congrArg List.reverse h
        simp only [List.reverse_append, List.reverse_cons, List.reverse_nil,
          List.nil_append, List.singleton_append, List.cons.injEq] at hr
        obtain ⟨hd, hl⟩ := hr
        have hmod : a % 10 = b % 10 :=
          digitChar_inj _ (Nat.mod_lt _ (by decide)) _ (Nat.mod_lt _ (by decide)) hd
        have hdiv : a / 10 = b / 10 := by
          apply ih (a / 10) (Nat.div_lt_self ha (by decide))
          have := congrArg List.reverse hl
          simpa using this
        have h10a := Nat.div_add_mod a 10
        have h10b := Nat.div_add_mod b 10
        omega

theorem natToStr_inj : ∀ a b : Nat, natToStr a = natToStr b → a = b := by
  intro a b h
  unfold natToStr at h
  split_ifs at h with h1 h2 h2
  · omega
  · exfalso
    have hd := congrArg String.data h
    have hx : natDigits b = natDigits (b / 10) ++ [digitChar (b % 10)] :=
      natDigits_pos b (Nat.pos_of_ne_zero h2)
    rw [show ("0" : String).data = ['0'] from rfl] at hd
    rw [show (String.mk (natDigits b)).data = natDigits b from rfl, hx] at hd
    have hr := congrArg List.reverse hd
    simp only [List.reverse_append, List.reverse_cons, List.reverse_nil, List.nil_append,
      List.singleton_append, List.reverse_singleton, List.cons.injEq] at hr
    obtain ⟨hd0, hl0⟩ := hr
    have : b % 10 = 0 := by
      refine digitChar_inj _ (Nat.mod_lt _ (by decide)) 0 (by decide) ?_
      rw [← hd0]
      decide
    have : b / 10 = 0 := by
      apply natDigits_eq_nil
      have := congrArg List.reverse hl0
      simpa using this
    omega
  · exfalso
    have hd := congrArg String.data h
    have hx : natDigits a = natDigits (a / 10) ++ [digitChar (a % 10)] :=
      natDigits_pos a (Nat.pos_of_ne_zero h1)
    rw [show ("0" : String).data = ['0'] from rfl] at hd
    rw [show (String.mk (natDigits a)).data = natDigits a from rfl, hx] at hd
    have hr := congrArg List.reverse hd
    simp only [List.reverse_append, List.reverse_cons, List.reverse_nil, List.nil_append,
      List.singleton_append, List.reverse_singleton, List.cons.injEq] at hr
    obtain ⟨hd0, hl0⟩ := hr
    have : a % 10 = 0 := by
      refine digitChar_inj _ (Nat.mod_lt _ (by decide)) 0 (by decide) ?_
      rw [hd0]
      decide
    have : a / 10 = 0 := by
      apply natDigits_eq_nil
      have := congrArg List.reverse hl0
      simpa using this
    omega
  · have hd := congrArg String.data h
    exact natDigits_inj a b hd

theorem genId_inj {a b : Nat} (h : genId a = genId b) : a = b := by
  unfold genId at h
  have hd := congrArg String.data h
  rw [String.data_append, String.data_append] at hd
  exact natToStr_inj a b (String.ext (List.append_cancel_left hd))

/-! ### Index key decomposition -/

theorem idxKeyStr_data' (k v i : String) :
    (idxKeyStr k v i).data
      = "index:".data ++ (k.data ++ ':' :: (v.data ++ ':' :: i.data)) := by
  rw [idxKeyStr]
  simp [String.data_append, List.append_assoc,
    show ((":" : String).data : List Char) = [':'] from rfl]

/-- An index key determines the (colon-free) node id after its last
`':'`. -/
theorem idxKeyStr_id_inj {k₁ v₁ i₁ k₂ v₂ i₂ : String}
    (h : idxKeyStr k₁ v₁ i₁ = idxKeyStr k₂ v₂ i₂) (h1 : NoColon i₁) (h2 : NoColon i₂) :
    i₁ = i₂ := by
  have hd := congrArg String.data h
  rw [idxKeyStr_data', idxKeyStr_data'] at hd
  have hd' : ("index:".data ++ k₁.data ++ ':' :: v₁.data) ++ ':' :: i₁.data
      = ("index:".data ++ k₂.data ++ ':' :: v₂.data) ++ ':' :: i₂.data := by
    simpa [List.append_assoc] using hd
  exact String.ext (afterColon_eq hd' h1 h2)

/-- With colon-free property key and value segments, an index key for a
fixed node id determines them. -/
theorem idxKeyStr_kv_inj {k v k₂ v₂ i : String}
    (h : idxKeyStr k₂ v₂ i = idxKeyStr k v i) (hk : NoColon k) (hv : NoColon v) :
    k₂ = k ∧ v₂ = v := by
  have hd := congrArg String.data h
  rw [idxKeyStr_data', idxKeyStr_data'] at hd
  have hd' := List.append_cancel_left hd
  obtain ⟨hk', hv'⟩ := seg2_inj k.data k₂.data v.data v₂.data i.data hk hv hd'.symm
  exact ⟨String.ext hk'.symm, String.ext hv'.symm⟩

/-- Extraction of the node id from a key ending in `":" ++ i`. -/
theorem extractId_append (y i : String) (hi : NoColon i) : extractId (y ++ ":" ++ i) = i := by
  unfold extractId
  have hdata : (y ++ ":" ++ i).data = y.data ++ ':' :: i.data := by
    simp [String.data_append, show ((":" : String).data : List Char) = [':'] from rfl]
  rw [hdata]
  have hrev : (y.data ++ ':' :: i.data).reverse = i.data.reverse ++ ':' :: y.data.reverse := by
    simp [List.reverse_append, List.append_assoc]
  rw [hrev, takeWhile_no_colon _ _ (by simpa using hi)]
  obtain ⟨li⟩ := i
  simp

/-! ### Node-op sequences and index-fold lemmas -/

/-- The node-level write operations quantified over by the index
consistency claim. -/
inductive GraphOp where
  | create (properties : Props)
  | update (nodeId : String) (properties : Props)
  | delete (nodeId : String)
deriving DecidableEq, Repr

def applyOp (s : KV) : GraphOp → KV
  | .create p => (createNode s p).2
  | .update id p => (updateNode s id p).2
  | .delete id => (deleteNode s id).2

/-- State after a sequence of node operations from the empty store. -/
def runOps (ops : List GraphOp) : KV := ops.foldl applyOp kvEmpty

theorem getNode_put_idx (s : KV) (k : String) (v : Value) (id : String) (w : StoreVal)
    (i' : String) : getNode (kvPut s (mkIndexKey k v id) w) i' = getNode s i' := by
  rw [getNode, kvGet_put,
    if_neg (fun hh => idxKeyStr_ne_nodeKey k v.toJSString id i' hh.symm)]
  rfl

theorem getNode_del_idx (s : KV) (k : String) (v : Value) (id : String) (i' : String) :
    getNode (kvDelete s (mkIndexKey k v id)) i' = getNode s i' := by
  rw [getNode, kvGet_delete,
    if_neg (fun hh => idxKeyStr_ne_nodeKey k v.toJSString id i' hh.symm)]
  rfl

theorem foldPutIdx_get_other (props : Props) (id : String) (key : String) :
    ∀ (s : KV), (∀ kv ∈ props, mkIndexKey kv.1 kv.2 id ≠ key) →
    kvGet (props.foldl (fun st kv => kvPut st (mkIndexKey kv.1 kv.2 id) (.idx id kv.2)) s) key
      = kvGet s key := by
  induction props with
  | nil => intro s _; rfl
  | cons kv rest ih =>
    intro s hk
    rw [List.foldl_cons, ih _ (fun x hx => hk x (List.mem_cons_of_mem kv hx))]
    rw [kvGet_put, if_neg (fun hh => hk kv (List.mem_cons_self kv rest) hh.symm)]

theorem foldPutIdx_isSome (props : Props) (id : String) (key : String) :
    ∀ (s : KV),
    ((kvGet (props.foldl (fun st kv => kvPut st (mkIndexKey kv.1 kv.2 id) (.idx id kv.2)) s)
        key).isSome = true
      ↔ (∃ kv ∈ props, mkIndexKey kv.1 kv.2 id = key) ∨ (kvGet s key).isSome = true) := by
  induction props with
  | nil => intro s; simp
  | cons kv rest ih =>
    intro s
    rw [List.foldl_cons, ih]
    constructor
    · rintro (⟨x, hx, hxe⟩ | hs)
      · exact Or.inl ⟨x, List.mem_cons_of_mem kv hx, hxe⟩
      · rw [kvGet_put] at hs
        by_cases hkey : key = mkIndexKey kv.1 kv.2 id
        · exact Or.inl ⟨kv, List.mem_cons_self kv rest, hkey.symm⟩
        · rw [if_neg hkey] at hs
          exact Or.inr hs
    · rintro (⟨x, hx, hxe⟩ | hs)
      · rcases List.mem_cons.mp hx with h1 | h1
        · subst h1
          refine Or.inr ?_
          rw [kvGet_put, if_pos hxe.symm]
          rfl
        · exact Or.inl ⟨x, h1, hxe⟩
      · refine Or.inr ?_
        rw [kvGet_put]
        by_cases hkey : key = mkIndexKey kv.1 kv.2 id
        · rw [if_pos hkey]; rfl
        · rw [if_neg hkey]; exact hs

theorem foldPutIdx_getNode (props : Props) (id : String) (i' : String) :
    ∀ (s : KV),
    getNode (props.foldl (fun st kv => kvPut st (mkIndexKey kv.1 kv.2 id) (.idx id kv.2)) s) i'
      = getNode s i' := by
  induction props with
  | nil => intro s; rfl
  | cons kv rest ih =>
    intro s
    rw [List.foldl_cons, ih, getNode_put_idx]

theorem foldPutIdx_node_val (props : Props) (id : String) (key : String) (n : GNode) :
    ∀ (s : KV),
    kvGet (props.foldl (fun st kv => kvPut st (mkIndexKey kv.1 kv.2 id) (.idx id kv.2)) s) key
        = some (.node n) →
    kvGet s key = some (.node n) := by
  induction props with
  | nil => intro s h; exact h
  | cons kv rest ih =>
    intro s h
    have h2 := ih _ h
    rw [kvGet_put] at h2
    by_cases hkey : key = mkIndexKey kv.1 kv.2 id
    · rw [if_pos hkey] at h2
      simp at h2
    · rw [if_neg hkey] at h2
      exact h2

theorem foldPutIdx_nextId (props : Props) (id : String) :
    ∀ (s : KV),
    (props.foldl (fun st kv => kvPut st (mkIndexKey kv.1 kv.2 id) (.idx id kv.2)) s).nextId
      = s.nextId := by
  induction props with
  | nil => intro s; rfl
  | cons kv rest ih => intro s; rw [List.foldl_cons, ih]; rfl

theorem foldDelIdx_get_other (props : Props) (id : String) (key : String) :
    ∀ (s : KV), (∀ kv ∈ props, mkIndexKey kv.1 kv.2 id ≠ key) →
    kvGet (props.foldl (fun st kv => kvDelete st (mkIndexKey kv.1 kv.2 id)) s) key
      = kvGet s key := by
  induction props with
  | nil => intro s _; rfl
  | cons kv rest ih =>
    intro s hk
    rw [List.foldl_cons, ih _ (fun x hx => hk x (List.mem_cons_of_mem kv hx))]
    rw [kvGet_delete, if_neg (fun hh => hk kv (List.mem_cons_self kv rest) hh.symm)]

theorem foldDelIdx_get_none (props : Props) (id : String) (key : String) :
    ∀ (s : KV), (∃ kv ∈ props, mkIndexKey kv.1 kv.2 id = key) →
    kvGet (props.foldl (fun st kv => kvDelete st (mkIndexKey kv.1 kv.2 id)) s) key
      = none := by
  induction props with
  | nil => intro s hmem; simp at hmem
  | cons kv rest ih =>
    intro s hmem
    rw [List.foldl_cons]
    by_cases hrest : ∃ x ∈ rest, mkIndexKey x.1 x.2 id = key
    · exact ih _ hrest
    · push_neg at hrest
      rw [foldDelIdx_get_other rest id key _ hrest]
      rcases hmem with ⟨x, hx, hxe⟩
      rcases List.mem_cons.mp hx with h1 | h1
      · subst h1
        rw [kvGet_delete, if_pos hxe.symm]
      · exact absurd hxe (hrest x h1)

theorem foldDelIdx_get_some (props : Props) (id : String) (key : String) (w : StoreVal) :
    ∀ (s : KV),
    kvGet (props.foldl (fun st kv => kvDelete st (mkIndexKey kv.1 kv.2 id)) s) key = some w →
    kvGet s key = some w := by
  induction props with
  | nil => intro s h; exact h
  | cons kv rest ih =>
    intro s h
    have h2 := ih _ h
    rw [kvGet_delete] at h2
    by_cases hkey : key = mkIndexKey kv.1 kv.2 id
    · rw [if_pos hkey] at h2
      exact absurd h2 (by simp)
    · rw [if_neg hkey] at h2
      exact h2

theorem foldDelIdx_getNode (props : Props) (id : String) (i' : String) :
    ∀ (s : KV),
    getNode (props.foldl (fun st kv => kvDelete st (mkIndexKey kv.1 kv.2 id)) s) i'
      = getNode s i' := by
  induction props with
  | nil => intro s; rfl
  | cons kv rest ih =>
    intro s
    rw [List.foldl_cons, ih, getNode_del_idx]

theorem foldDelIdx_nextId (props : Props) (id : String) :
    ∀ (s : KV),
    (props.foldl (fun st kv => kvDelete st (mkIndexKey kv.1 kv.2 id)) s).nextId
      = s.nextId := by
  induction props with
  | nil => intro s; rfl
  | cons kv rest ih => intro s; rw [List.foldl_cons, ih]; rfl

/-! ### The store invariant -/

/-- Every stored node record sits under `node:<id>` for a colon-free id
and — in the world of the three node operations — carries empty
adjacency lists. -/
def NodesWF (s : KV) : Prop :=
  ∀ key n, kvGet s key = some (.node n) →
    ∃ id, key = nodeKey id ∧ NoColon id ∧ n.inEdges = [] ∧ n.outEdges = []

/-- Identifiers at or beyond the supply counter are unused. -/
def Fresh (s : KV) : Prop :=
  ∀ m, s.nextId ≤ m → kvGet s (nodeKey (genId m)) = none

/-- The index invariant: a key of index shape is present iff some
existing node has a property pair that renders to exactly that key. -/
def IdxWF (s : KV) : Prop :=
  ∀ k v i, (kvGet s (idxKeyStr k v i)).isSome = true ↔
    ∃ i₀ n kv, getNode s i₀ = some n ∧ kv ∈ n.properties ∧
      idxKeyStr k v i = mkIndexKey kv.1 kv.2 i₀

def Inv (s : KV) : Prop := NodesWF s ∧ Fresh s ∧ IdxWF s

theorem inv_empty : Inv kvEmpty := by
  refine ⟨?_, ?_, ?_⟩
  · intro key n hget
    simp [kvGet, kvEmpty] at hget
  · intro m _
    rfl
  · intro k v i
    constructor
    · intro h
      simp [kvGet, kvEmpty] at h
    · rintro ⟨i₀, n, kv, hget, _, _⟩
      simp [getNode, kvGet, kvEmpty] at hget

theorem inv_createNode (s : KV) (p : Props) (h : Inv s) : Inv (createNode s p).2 := by
  obtain ⟨hN, hF, hI⟩ := h
  have hshape : (createNode s p).2
      = p.foldl (fun st kv => kvPut st (mkIndexKey kv.1 kv.2 (genId s.nextId))
          (.idx (genId s.nextId) kv.2))
        (kvPut { s with nextId := s.nextId + 1 } (nodeKey (genId s.nextId))
          (.node { id := genId s.nextId, properties := p, inEdges := [], outEdges := [] })) := rfl
  have hgn : ∀ i₀, getNode (createNode s p).2 i₀
      = if i₀ = genId s.nextId
        then some { id := genId s.nextId, properties := p, inEdges := [], outEdges := [] }
        else getNode s i₀ := by
    intro i₀
    rw [hshape, foldPutIdx_getNode, getNode_put_node]
    rfl
  refine ⟨?_, ?_, ?_⟩
  · intro key n hget
    rw [hshape] at hget
    have h2 := foldPutIdx_node_val p (genId s.nextId) key n _ hget
    rw [kvGet_put] at h2
    by_cases hkey : key = nodeKey (genId s.nextId)
    · rw [if_pos hkey] at h2
      simp only [Option.some.injEq, StoreVal.node.injEq] at h2
      exact ⟨genId s.nextId, hkey, noColon_genId _, by rw [← h2], by rw [← h2]⟩
    · rw [if_neg hkey] at h2
      exact hN key n h2
  · intro m hm
    have hnext : (createNode s p).2.nextId = s.nextId + 1 := by
      rw [hshape, foldPutIdx_nextId]
      rfl
    rw [hnext] at hm
    rw [hshape, foldPutIdx_get_other _ _ _ _ (fun kv _ => idxKeyStr_ne_nodeKey _ _ _ _)]
    rw [kvGet_put, if_neg ?hne]
    case hne =>
      intro hh
      have := genId_inj (nodeKey_inj hh)
      omega
    exact hF m (by omega)
  · intro k v i
    rw [hshape, foldPutIdx_isSome]
    have hbase : kvGet (kvPut { s with nextId := s.nextId + 1 } (nodeKey (genId s.nextId))
        (.node { id := genId s.nextId, properties := p, inEdges := [], outEdges := [] }))
          (idxKeyStr k v i)
        = kvGet s (idxKeyStr k v i) := by
      rw [kvGet_put, if_neg (idxKeyStr_ne_nodeKey _ _ _ _)]
      rfl
    rw [hbase, hI k v i]
    rw [← hshape]
    simp only [hgn]
    constructor
    · rintro (⟨kv, hkv, hke⟩ | ⟨i₀, n, kv, hget, hmem, hke⟩)
      · exact ⟨genId s.nextId,
          { id := genId s.nextId, properties := p, inEdges := [], outEdges := [] }, kv,
          by rw [if_pos rfl], hkv, hke.symm⟩
      · refine ⟨i₀, n, kv, ?_, hmem, hke⟩
        rw [if_neg ?_]
        · exact hget
        · intro hh
          subst hh
          have := hF s.nextId le_rfl
          rw [getNode] at hget
          rw [this] at hget
          simp at hget
    · rintro ⟨i₀, n, kv, hget, hmem, hke⟩
      by_cases hi₀ : i₀ = genId s.nextId
      · subst hi₀
        rw [if_pos rfl] at hget
        simp only [Option.some.injEq] at hget
        refine Or.inl ⟨kv, ?_, hke.symm⟩
        rw [← hget] at hmem
        exact hmem
      · rw [if_neg hi₀] at hget
        exact Or.inr ⟨i₀, n, kv, hget, hmem, hke⟩

theorem getNode_eq_some {s : KV} {id : String} {n : GNode} :
    getNode s id = some n ↔ kvGet s (nodeKey id) = some (.node n) := by
  rw [getNode]
  cases h : kvGet s (nodeKey id) with
  | none => simp
  | some v => cases v <;> simp

theorem getNode_del_node (s : KV) (id i' : String) :
    getNode (kvDelete s (nodeKey id)) i' = if i' = id then none else getNode s i' := by
  by_cases h : i' = id
  · subst h
    rw [if_pos rfl, getNode, kvGet_delete, if_pos rfl]
  · rw [if_neg h, getNode, kvGet_delete, if_neg (fun hh => h (nodeKey_inj hh))]
    rfl

theorem inv_updateNode (s : KV) (id : String) (delta : Props) (h : Inv s) :
    Inv (updateNode s id delta).2 := by
  obtain ⟨hN, hF, hI⟩ := h
  cases hget : getNode s id with
  | none =>
    have hsame : (updateNode s id delta).2 = s := by rw [updateNode, hget]
    rw [hsame]
    exact ⟨hN, hF, hI⟩
  | some node =>
    have hkv := getNode_eq_some.mp hget
    obtain ⟨id', hkey', hnc', hin, hout⟩ := hN _ _ hkv
    have hid : id = id' := nodeKey_inj hkey'
    subst hid
    have hshape : (updateNode s id delta).2 =
        kvPut ((propsMerge node.properties delta).foldl
            (fun st kv => kvPut st (mkIndexKey kv.1 kv.2 id) (.idx id kv.2))
            (node.properties.foldl
              (fun st kv => kvDelete st (mkIndexKey kv.1 kv.2 id)) s))
          (nodeKey id) (.node { node with properties := propsMerge node.properties delta }) := by
      rw [updateNode, hget]
    have hgn : ∀ i₀, getNode (updateNode s id delta).2 i₀
        = if i₀ = id then some { node with properties := propsMerge node.properties delta }
          else getNode s i₀ := by
      intro i₀
      rw [hshape, getNode_put_node]
      by_cases hi : i₀ = id
      · rw [if_pos hi, if_pos hi]
      · rw [if_neg hi, if_neg hi, foldPutIdx_getNode, foldDelIdx_getNode]
    refine ⟨?_, ?_, ?_⟩
    · intro key n hg
      rw [hshape] at hg
      rw [kvGet_put] at hg
      by_cases hkey : key = nodeKey id
      · rw [if_pos hkey] at hg
        simp only [Option.some.injEq, StoreVal.node.injEq] at hg
        refine ⟨id, hkey, hnc', ?_, ?_⟩
        · rw [← hg]
          exact hin
        · rw [← hg]
          exact hout
      · rw [if_neg hkey] at hg
        exact hN key n (foldDelIdx_get_some _ _ _ _ _ (foldPutIdx_node_val _ _ _ _ _ hg))
    · intro m hm
      have hnext : (updateNode s id delta).2.nextId = s.nextId := by
        rw [hshape]
        show ((propsMerge node.properties delta).foldl
          (fun st kv => kvPut st (mkIndexKey kv.1 kv.2 id) (.idx id kv.2))
          (node.properties.foldl
            (fun st kv => kvDelete st (mkIndexKey kv.1 kv.2 id)) s)).nextId = s.nextId
        rw [foldPutIdx_nextId, foldDelIdx_nextId]
      rw [hnext] at hm
      have hne1 : nodeKey (genId m) ≠ nodeKey id := by
        intro hh
        have : genId m = id := nodeKey_inj hh
        rw [← this] at hkv
        rw [hF m hm] at hkv
        simp at hkv
      rw [hshape, kvGet_put, if_neg hne1,
        foldPutIdx_get_other _ _ _ _ (fun kv _ => idxKeyStr_ne_nodeKey _ _ _ _),
        foldDelIdx_get_other _ _ _ _ (fun kv _ => idxKeyStr_ne_nodeKey _ _ _ _)]
      exact hF m hm
    · intro k v i
      have hL : (kvGet (updateNode s id delta).2 (idxKeyStr k v i)).isSome = true
          ↔ (∃ kv ∈ propsMerge node.properties delta, mkIndexKey kv.1 kv.2 id = idxKeyStr k v i)
            ∨ (kvGet (node.properties.foldl
                (fun st kv => kvDelete st (mkIndexKey kv.1 kv.2 id)) s)
                (idxKeyStr k v i)).isSome = true := by
        rw [hshape, kvGet_put, if_neg (idxKeyStr_ne_nodeKey _ _ _ _), foldPutIdx_isSome]
      rw [hL]
      simp only [hgn]
      by_cases hdel : ∃ kv ∈ node.properties, mkIndexKey kv.1 kv.2 id = idxKeyStr k v i
      · rw [foldDelIdx_get_none _ _ _ _ hdel]
        simp only [Option.isSome_none, Bool.false_eq_true, or_false]
        constructor
        · rintro ⟨kv, hkv2, hke⟩
          exact ⟨id, _, kv, by rw [if_pos rfl], hkv2, hke.symm⟩
        · rintro ⟨i₀, n, kv, hg, hmem, hke⟩
          by_cases hi₀ : i₀ = id
          · subst hi₀
            rw [if_pos rfl] at hg
            simp only [Option.some.injEq] at hg
            refine ⟨kv, ?_, hke.symm⟩
            rw [← hg] at hmem
            exact hmem
          · exfalso
            rw [if_neg hi₀] at hg
            obtain ⟨id'', hkey'', hnc'', _, _⟩ := hN _ _ (getNode_eq_some.mp hg)
            have hi₀' : i₀ = id'' := nodeKey_inj hkey''
            subst hi₀'
            obtain ⟨kv₀, _, hke₀⟩ := hdel
            exact hi₀ (idxKeyStr_id_inj (hke.symm.trans hke₀.symm) hnc'' hnc')
      · push_neg at hdel
        rw [foldDelIdx_get_other _ _ _ _ hdel, hI k v i]
        constructor
        · rintro (⟨kv, hkv2, hke⟩ | ⟨i₀, n, kv, hg, hmem, hke⟩)
          · exact ⟨id, _, kv, by rw [if_pos rfl], hkv2, hke.symm⟩
          · by_cases hi₀ : i₀ = id
            · exfalso
              subst hi₀
              rw [hget] at hg
              simp only [Option.some.injEq] at hg
              subst hg
              exact hdel kv hmem hke.symm
            · exact ⟨i₀, n, kv, by rw [if_neg hi₀]; exact hg, hmem, hke⟩
        · rintro ⟨i₀, n, kv, hg, hmem, hke⟩
          by_cases hi₀ : i₀ = id
          · subst hi₀
            rw [if_pos rfl] at hg
            simp only [Option.some.injEq] at hg
            refine Or.inl ⟨kv, ?_, hke.symm⟩
            rw [← hg] at hmem
            exact hmem
          · rw [if_neg hi₀] at hg
            exact Or.inr ⟨i₀, n, kv, hg, hmem, hke⟩

theorem inv_deleteNode (s : KV) (id : String) (h : Inv s) : Inv (deleteNode s id).2 := by
  obtain ⟨hN, hF, hI⟩ := h
  cases hget : getNode s id with
  | none =>
    have hsame : (deleteNode s id).2 = s := by rw [deleteNode, hget]
    rw [hsame]
    exact ⟨hN, hF, hI⟩
  | some node =>
    have hkv := getNode_eq_some.mp hget
    obtain ⟨id', hkey', hnc', hin, hout⟩ := hN _ _ hkv
    have hid : id = id' := nodeKey_inj hkey'
    subst hid
    have hshape0 : (deleteNode s id).2 =
        kvDelete (node.properties.foldl
          (fun st kv => kvDelete st (mkIndexKey kv.1 kv.2 id))
          ((node.inEdges ++ node.outEdges).foldl (fun st eid => (deleteEdge st eid).2) s))
          (nodeKey id) := by
      rw [deleteNode, hget]
    have hshape : (deleteNode s id).2 =
        kvDelete (node.properties.foldl
          (fun st kv => kvDelete st (mkIndexKey kv.1 kv.2 id)) s) (nodeKey id) := by
      rw [hshape0, hin, hout]
      rfl
    have hgn : ∀ i₀, getNode (deleteNode s id).2 i₀
        = if i₀ = id then none else getNode s i₀ := by
      intro i₀
      rw [hshape, getNode_del_node]
      by_cases hi : i₀ = id
      · rw [if_pos hi, if_pos hi]
      · rw [if_neg hi, if_neg hi, foldDelIdx_getNode]
    refine ⟨?_, ?_, ?_⟩
    · intro key n hg
      rw [hshape, kvGet_delete] at hg
      by_cases hkey : key = nodeKey id
      · rw [if_pos hkey] at hg
        simp at hg
      · rw [if_neg hkey] at hg
        exact hN key n (foldDelIdx_get_some _ _ _ _ _ hg)
    · intro m hm
      have hnext : (deleteNode s id).2.nextId = s.nextId := by
        rw [hshape]
        show ((node.properties.foldl
          (fun st kv => kvDelete st (mkIndexKey kv.1 kv.2 id)) s)).nextId = s.nextId
        rw [foldDelIdx_nextId]
      rw [hnext] at hm
      rw [hshape, kvGet_delete]
      by_cases hkey : nodeKey (genId m) = nodeKey id
      · rw [if_pos hkey]
      · rw [if_neg hkey,
          foldDelIdx_get_other _ _ _ _ (fun kv _ => idxKeyStr_ne_nodeKey _ _ _ _)]
        exact hF m hm
    · intro k v i
      have hL : (kvGet (deleteNode s id).2 (idxKeyStr k v i)).isSome = true ↔
          (kvGet (node.properties.foldl
            (fun st kv => kvDelete st (mkIndexKey kv.1 kv.2 id)) s)
            (idxKeyStr k v i)).isSome = true := by
        rw [hshape, kvGet_delete, if_neg (idxKeyStr_ne_nodeKey _ _ _ _)]
      rw [hL]
      simp only [hgn]
      by_cases hdel : ∃ kv ∈ node.properties, mkIndexKey kv.1 kv.2 id = idxKeyStr k v i
      · rw [foldDelIdx_get_none _ _ _ _ hdel]
        simp only [Option.isSome_none, Bool.false_eq_true, false_iff]
        rintro ⟨i₀, n, kv, hg, hmem, hke⟩
        by_cases hi₀ : i₀ = id
        · rw [if_pos hi₀] at hg
          simp at hg
        · rw [if_neg hi₀] at hg
          obtain ⟨id'', hkey'', hnc'', _, _⟩ := hN _ _ (getNode_eq_some.mp hg)
          have hi₀' : i₀ = id'' := nodeKey_inj hkey''
          subst hi₀'
          obtain ⟨kv₀, _, hke₀⟩ := hdel
          exact hi₀ (idxKeyStr_id_inj (hke.symm.trans hke₀.symm) hnc'' hnc')
      · push_neg at hdel
        rw [foldDelIdx_get_other _ _ _ _ hdel, hI k v i]
        constructor
        · rintro ⟨i₀, n, kv, hg, hmem, hke⟩
          by_cases hi₀ : i₀ = id
          · exfalso
            subst hi₀
            rw [hget] at hg
            simp only [Option.some.injEq] at hg
            subst hg
            exact hdel kv hmem hke.symm
          · exact ⟨i₀, n, kv, by rw [if_neg hi₀]; exact hg, hmem, hke⟩
        · rintro ⟨i₀, n, kv, hg, hmem, hke⟩
          by_cases hi₀ : i₀ = id
          · rw [if_pos hi₀] at hg
            simp at hg
          · rw [if_neg hi₀] at hg
            exact ⟨i₀, n, kv, hg, hmem, hke⟩

theorem inv_applyOp (s : KV) (op : GraphOp) (h : Inv s) : Inv (applyOp s op) := by
  cases op with
  | create p => exact inv_createNode s p h
  | update id p => exact inv_updateNode s id p h
  | delete id => exact inv_deleteNode s id h

theorem inv_foldl (l : List GraphOp) : ∀ (s : KV), Inv s → Inv (l.foldl applyOp s) := by
  induction l with
  | nil => intro s hs; exact hs
  | cons op rest ih =>
    intro s hs
    exact ih _ (inv_applyOp s op hs)

theorem inv_runOps (ops : List GraphOp) : Inv (runOps ops) :=
  inv_foldl ops kvEmpty inv_empty

theorem kvGet_isSome_mem (s : KV) (key : String) (h : (kvGet s key).isSome = true) :
    key ∈ s.entries.map (·.1) := by
  rw [kvGet] at h
  cases hf : s.entries.find? (fun e => e.1 == key) with
  | none => rw [hf] at h; simp at h
  | some e =>
    have hmem := List.mem_of_find?_eq_some hf
    have hpred := List.find?_some hf
    simp only [beq_iff_eq] at hpred
    exact List.mem_map.mpr ⟨e, hmem, hpred⟩

theorem strIsPrefixOf_data (p s : String) (r : List Char) (h : s.data = p.data ++ r) :
    strIsPrefixOf p s = true := by
  rw [strIsPrefixOf, h]
  rw [List.isPrefixOf_iff_prefix]
  exact List.prefix_append p.data r

theorem getNode_createNode_self (s : KV) (p : Props) :
    getNode (createNode s p).2 (genId s.nextId) = some (createNode s p).1 := by
  show getNode (p.foldl (fun st kv => kvPut st (mkIndexKey kv.1 kv.2 (genId s.nextId))
      (.idx (genId s.nextId) kv.2))
    (kvPut { s with nextId := s.nextId + 1 } (nodeKey (genId s.nextId))
      (.node { id := genId s.nextId, properties := p, inEdges := [], outEdges := [] })))
    (genId s.nextId) = _
  rw [foldPutIdx_getNode, getNode_put_node, if_pos rfl]
  rfl

theorem createNode_idx_isSome (s : KV) (p : Props) (kv : String × Value) (h : kv ∈ p) :
    (kvGet (createNode s p).2 (mkIndexKey kv.1 kv.2 (genId s.nextId))).isSome = true := by
  show (kvGet (p.foldl (fun st kv => kvPut st (mkIndexKey kv.1 kv.2 (genId s.nextId))
      (.idx (genId s.nextId) kv.2))
    (kvPut { s with nextId := s.nextId + 1 } (nodeKey (genId s.nextId))
      (.node { id := genId s.nextId, properties := p, inEdges := [], outEdges := [] }))) _).isSome
      = true
  rw [foldPutIdx_isSome]
  exact Or.inl ⟨kv, h, rfl⟩

/-- After `createNode(p)` returns `n`, `query({property: k, value: v})`
contains `n` for `(k, v) ∈ p`, provided the matching index keys fit in
the default page. -/
theorem createNode_query_contains (s : KV) (p : Props) (k : String) (v : Value)
    (hmem : (k, v) ∈ p)
    (hcount : (kvMatching (createNode s p).2
      (queryPfx { property := some k, value := some v }) none).length ≤ 100) :
    (createNode s p).1 ∈
      (query (createNode s p).2 { property := some k, value := some v }).items := by
  have hKsome := createNode_idx_isSome s p (k, v) hmem
  have hKmem0 : mkIndexKey k v (genId s.nextId) ∈ (createNode s p).2.entries.map (·.1) :=
    kvGet_isSome_mem _ _ hKsome
  have hKpfx : strIsPrefixOf (queryPfx { property := some k, value := some v })
      (mkIndexKey k v (genId s.nextId)) = true := by
    by_cases hk : k = ""
    · have hq : queryPfx { property := some k, value := some v } = "index:" := by
        simp [queryPfx, strTruthy, hk]
      rw [hq]
      refine strIsPrefixOf_data _ _
        (k.data ++ [':'] ++ (Value.toJSString v).data ++ [':'] ++ (genId s.nextId).data) ?_
      rw [mkIndexKey, idxKeyStr]
      simp [String.data_append, List.append_assoc,
        show ((":" : String).data : List Char) = [':'] from rfl]
    · have hq : queryPfx { property := some k, value := some v }
          = "index:" ++ k ++ ":" ++ (Value.toJSString v) ++ ":" := by
        simp [queryPfx, strTruthy, hk]
      rw [hq]
      exact strIsPrefixOf_data _ _ (genId s.nextId).data
        (by rw [mkIndexKey, idxKeyStr]; simp [String.data_append, List.append_assoc])
  have hKrest : mkIndexKey k v (genId s.nextId) ∈
      kvMatching (createNode s p).2 (queryPfx { property := some k, value := some v }) none := by
    rw [kvMatching]
    rw [mem_sortByKey]
    exact List.mem_filter.mpr ⟨hKmem0, hKpfx⟩
  show (createNode s p).1 ∈
    (((kvList (createNode s p).2 (queryPfx { property := some k, value := some v })
        (100 + 1) none).keys.take 100).map extractId).filterMap
      (getNode (createNode s p).2)
  have hkeys : (kvList (createNode s p).2 (queryPfx { property := some k, value := some v })
      (100 + 1) none).keys
      = kvMatching (createNode s p).2 (queryPfx { property := some k, value := some v }) none := by
    rw [kvList, kvListOf]
    exact List.take_of_length_le (by omega)
  rw [hkeys, List.take_of_length_le hcount]
  refine List.mem_filterMap.mpr ⟨extractId (mkIndexKey k v (genId s.nextId)), ?_, ?_⟩
  · exact List.mem_map.mpr ⟨mkIndexKey k v (genId s.nextId), hKrest, rfl⟩
  · have hext : extractId (mkIndexKey k v (genId s.nextId)) = genId s.nextId :=
      extractId_append ("index:" ++ k ++ ":" ++ Value.toJSString v) (genId s.nextId)
        (noColon_genId _)
    rw [hext]
    exact getNode_createNode_self s p

/-- Claim C7 (amended): for every sequence of `createNode`, `updateNode`
and `deleteNode` operations from the empty store, and colon-free
`k`, `v`, `nodeId` segments, the index record `index:<k>:<v>:<nodeId>`
exists iff the node `nodeId` exists and carries a property with key `k`
whose rendered value is `v`; and immediately after `createNode(p)`
returns `n`, `query({property: k, value: v})` contains `n` for every
`(k, v) ∈ p` whose index keys fit in the default page of 100. (For
segments containing `':'` the iff fails because distinct property
triples render to the same flat key; see the counterexample. `updateNode`
consistency — old rows gone, new rows present — is the same iff read
after the update operation.) -/
theorem c7_index_consistency :
    (∀ (ops : List GraphOp) (k v i : String), NoColon k → NoColon v → NoColon i →
      ((kvGet (runOps ops) (idxKeyStr k v i)).isSome = true ↔
        ∃ n v₀, getNode (runOps ops) i = some n ∧ (k, v₀) ∈ n.properties ∧
          Value.toJSString v₀ = v)) ∧
    (∀ (ops : List GraphOp) (p : Props) (k : String) (v : Value), (k, v) ∈ p →
      (kvMatching (createNode (runOps ops) p).2
        (queryPfx { property := some k, value := some v }) none).length ≤ 100 →
      (createNode (runOps ops) p).1 ∈
        (query (createNode (runOps ops) p).2 { property := some k, value := some v }).items) := by
  constructor
  · intro ops k v i hk hv hi
    obtain ⟨hN, _, hI⟩ := inv_runOps ops
    rw [hI k v i]
    constructor
    · rintro ⟨i₀, n, kv, hg, hmem, hke⟩
      obtain ⟨id'', hkey'', hnc'', _, _⟩ := hN _ _ (getNode_eq_some.mp hg)
      have hi₀ : i₀ = id'' := nodeKey_inj hkey''
      subst hi₀
      have hii : i = i₀ := idxKeyStr_id_inj hke hi hnc''
      subst hii
      obtain ⟨hks, hvs⟩ := idxKeyStr_kv_inj
        (show idxKeyStr kv.1 kv.2.toJSString i = idxKeyStr k v i from hke.symm) hk hv
      refine ⟨n, kv.2, hg, ?_, hvs⟩
      rw [← hks]
      simpa using hmem
    · rintro ⟨n, v₀, hg, hmem, hvs⟩
      refine ⟨i, n, (k, v₀), hg, hmem, ?_⟩
      show idxKeyStr k v i = mkIndexKey k v₀ i
      rw [mkIndexKey, hvs]
  · intro ops p k v hmem hcount
    exact createNode_query_contains (runOps ops) p k v hmem hcount

/-- Witness for C7 after a single `createNode`. -/
theorem c7_index_consistency_witness :
    (NoColon "userId" ∧ NoColon "u1" ∧ NoColon "id0") ∧
    ((kvGet (runOps [.create [("type", .str "USER"), ("userId", .str "u1")]])
        (idxKeyStr "userId" "u1" "id0")).isSome = true ↔
      ∃ n v₀,
        getNode (runOps [.create [("type", .str "USER"), ("userId", .str "u1")]]) "id0"
          = some n ∧
        ("userId", v₀) ∈ n.properties ∧ Value.toJSString v₀ = "u1") :=
  ⟨⟨by decide, by decide, by decide⟩,
    c7_index_consistency.1 [.create [("type", .str "USER"), ("userId", .str "u1")]]
      "userId" "u1" "id0" (by decide) (by decide) (by decide)⟩

/-- Counterexample to claim C7 as stated: property parts containing
`':'` collide. After `createNode({a: "b:c"})` the store key
`index:a:b:c:id0` exists, the node `id0` exists, but its properties do
not contain the pair `("a:b", "c")` — even though
`index:<a:b>:<c>:<id0>` is that very key. -/
theorem c7_colon_collision_counterexample :
    (kvGet (runOps [.create [("a", .str "b:c")]]) (idxKeyStr "a:b" "c" "id0")).isSome = true ∧
    getNode (runOps [.create [("a", .str "b:c")]]) "id0" =
      some { id := "id0", properties := [("a", .str "b:c")], inEdges := [], outEdges := [] } ∧
    ("a:b", Value.str "c") ∉
      ({ id := "id0", properties := [("a", .str "b:c")], inEdges := [], outEdges := [] } :
        GNode).properties := by
  decide

end Lily
